import Mathlib

/-!
Health endpoint of `application-code/main.go`.

A shallow embedding of the two functions of `main.go` (`healthHandler` and
`main`) together with the part of the Go standard library they call:
`fmt.Fprintf`, `fmt.Println`, `log.Fatal`, the `http.ResponseWriter`
interface, and the serving of requests that `http.ListenAndServe` does with
`http.DefaultServeMux`.

Go strings are modelled as Lean strings (sequences of code points, that is,
well-formed UTF-8); algorithms that walk a string byte by byte walk the list
of characters, which is the same walk for the ASCII delimiters they test.
Where bytes matter (URL escaping), a character stands for its UTF-8 bytes.

Two observations of a response are used.  The properties of `healthHandler`
itself are stated at the `http.ResponseWriter`, with a recording writer.  The
properties of routing are stated on the reply of the server: the status code
and the body bytes that the server's own writer puts on the connection.
-/

namespace MuchTodo

/-! ## `fmt` -/

/-- Literal run of `doPrintf`: the characters of the format up to the next
`'%'` (copied to the output unchanged) and the rest of the format. -/
def literalRun : List Char → List Char × List Char
  | [] => ([], [])
  | c :: cs =>
    if c = '%' then ([], c :: cs)
    else
      let (lit, rest) := literalRun cs
      (c :: lit, rest)

/-- Flag characters of a directive (`#`, `0`, `+`, `-`, space) are consumed;
without operands the fast path for simple verbs is never taken. -/
def skipFlags : List Char → List Char
  | [] => []
  | c :: cs =>
    if c = '#' ∨ c = '0' ∨ c = '+' ∨ c = '-' ∨ c = ' ' then skipFlags cs
    else c :: cs

/-- The scanner `parsenum` of `fmt`: reads decimal digits, reporting whether
there was one and the unread text.  A number that grows beyond `1e6` while
digits remain is "too large": the scan reports failure and skips to the end of
the text it was given. -/
def parsenum : Nat → Bool → List Char → Bool × List Char
  | _, isnum, [] => (isnum, [])
  | num, isnum, c :: cs =>
    if c.isDigit then
      if num > 1000000 then (false, [])
      else parsenum (num * 10 + (c.toNat - 48)) true cs
    else (isnum, c :: cs)

/-- The text between an opening bracket and the first `']'`, with the text
after that bracket; `none` when there is no closing bracket. -/
def untilBracket : List Char → Option (List Char × List Char)
  | [] => none
  | c :: cs =>
    if c = ']' then some ([], cs)
    else (untilBracket cs).map (fun p => (c :: p.1, p.2))

/-- The function `argNumber` of `fmt` when the call has no operands: an
explicit argument index `[n]` can never name an operand, so it always marks
the directive as having a bad index.  Returns whether a well-formed index was
read, whether a bracket was seen at all, and the unread format. -/
def argNumber (format : List Char) : Bool × Bool × List Char :=
  match format with
  | '[' :: t =>
    if (('[' :: t).length < 3) then (false, true, t)
    else
      match untilBracket t with
      | none => (false, true, t)
      | some (inner, rest) =>
        let (ok, unread) := parsenum 0 false inner
        (ok && unread.isEmpty, true, rest)
  | s => (false, false, s)

/-- One directive of `doPrintf` when the call has no operands, as in
`fmt.Fprintf(w, format)`: the text after the `'%'` is read as flags, argument
index, width, precision and verb.  `%%` prints a percent sign; any other verb
finds no operand and prints `%!v(MISSING)`, or `%!v(BADINDEX)` after an
argument index; a `*` width or precision prints `%!(BADWIDTH)` or
`%!(BADPREC)`; a format that ends inside the directive prints `%!(NOVERB)`.
Returns the output and the unread rest of the format. -/
def directive (afterPercent : List Char) : List Char × List Char :=
  let s0 := skipFlags afterPercent
  -- explicit argument index?
  let (afterIndex1, seen1, s1) := argNumber s0
  -- width
  let (out2, afterIndex2, bad2, s2) :=
    match s1 with
    | '*' :: t => ("%!(BADWIDTH)".data, false, false, t)
    | s =>
      let (widPresent, t) := parsenum 0 false s
      ([], afterIndex1, afterIndex1 && widPresent, t)
  -- precision
  let (out3, afterIndex3, bad3, s3) :=
    match s2 with
    | '.' :: t =>
      let (afterIndexP, seenP, tP) := argNumber t
      match tP with
      | '*' :: u => ("%!(BADPREC)".data, false, afterIndex2 || seenP, u)
      | u => ([], afterIndexP, afterIndex2 || seenP, (parsenum 0 false u).2)
    | s => ([], afterIndex2, false, s)
  let (seen4, s4) :=
    if afterIndex3 then (false, s3) else ((argNumber s3).2.1, (argNumber s3).2.2)
  let goodArgNum := !(seen1 || bad2 || bad3 || seen4)
  match s4 with
  | [] => (out2 ++ out3 ++ "%!(NOVERB)".data, [])
  | verb :: rest =>
    if verb = '%' then (out2 ++ out3 ++ ['%'], rest)
    else if !goodArgNum then
      (out2 ++ out3 ++ '%' :: '!' :: verb :: "(BADINDEX)".data, rest)
    else (out2 ++ out3 ++ '%' :: '!' :: verb :: "(MISSING)".data, rest)

/-- The formatting loop of `fmt` (`doPrintf`) for a call without operands:
literal text is copied, each `'%'` starts a directive.  `fuel` bounds the
number of directives; the length of the format is always enough. -/
def doPrintf : Nat → List Char → List Char
  | 0, _ => []
  | fuel + 1, format =>
    match literalRun format with
    | (lit, []) => lit
    | (lit, _ :: afterPercent) =>
      let (out, rest) := directive afterPercent
      lit ++ out ++ doPrintf fuel rest

/-- The string `fmt.Sprintf(format)` builds for a call without operands. -/
def Sprintf (format : String) : String :=
  ⟨doPrintf (format.length + 1) format.data⟩

/-- The operands of `fmt.Sprintln` with a space between each two. -/
def joinSpace : List String → String
  | [] => ""
  | [a] => a
  | a :: b :: rest => a ++ " " ++ joinSpace (b :: rest)

/-- The string `fmt.Sprintln(a...)` builds for string operands: the operands
separated by spaces, followed by a newline. -/
def Sprintln (a : List String) : String :=
  joinSpace a ++ "\n"

/-! ## `net/http`: requests, headers, the `ResponseWriter` interface -/

/-- The type `http.Header`: a map from header names to their values, kept as
an association list with at most one entry per name. -/
abbrev Header := List (String × List String)

/-- The method `Header.Set`: replaces the values of `key` by the single
`value` (callers in this development pass canonical header names). -/
def Header.Set (h : Header) (key value : String) : Header :=
  (key, [value]) :: h.filter (fun kv => kv.1 ≠ key)

/-- The method `Header.Del`: removes the values of `key`. -/
def Header.Del (h : Header) (key : String) : Header :=
  h.filter (fun kv => kv.1 ≠ key)

/-- The lookup `h[key]` with its presence flag. -/
def Header.lookup (h : Header) (key : String) : Option (List String) :=
  (h.find? (fun kv => kv.1 = key)).map (fun kv => kv.2)

/-- The fields of `http.Request` (and of its `URL`) that the program or its
router can observe.  The server fills `URL` by splitting the request target;
the model stores the parts, `URL.Host` as `URLHost`, `URL.Path` (the decoded
path) as `Path`, `URL.RawPath` (the encoded path hint, empty when the default
encoding of `Path` is the path received) as `RawPath`, and `URL.RawQuery` as
`RawQuery`. -/
structure Request where
  Method : String
  URLHost : String
  Path : String
  RawPath : String
  RawQuery : String
  Host : String
  ProtoMajor : Nat
  ProtoMinor : Nat
  Header : Header
  Body : String
  deriving DecidableEq, Repr

/-- The request target as received on the request line (`Request.RequestURI`),
recovered from the two halves the server parsed it into. -/
def Request.RequestURI (r : Request) : String :=
  if r.RawQuery = "" then r.Path else r.Path ++ "?" ++ r.RawQuery

/-- The method `Request.ProtoAtLeast`. -/
def Request.ProtoAtLeast (r : Request) (major minor : Nat) : Bool :=
  decide (r.ProtoMajor > major ∨ (r.ProtoMajor = major ∧ r.ProtoMinor ≥ minor))

/-- The interface `http.ResponseWriter` over a writer state `σ`.  `Header`
returns the header map; Go hands out a reference that the caller mutates in
place, which `SetHeader` models by storing the mutated map back.  `Write`
returns the new state, the byte count and the error (`none` for `nil`).
`WriteHeader` returns nothing but the new state. -/
structure ResponseWriter (σ : Type) where
  Header : σ → MuchTodo.Header
  SetHeader : σ → MuchTodo.Header → σ
  Write : σ → String → σ × Nat × Option String
  WriteHeader : σ → Nat → σ

/-- The constant `http.StatusOK`. -/
def StatusOK : Nat := 200
/-- The constant `http.StatusTemporaryRedirect`. -/
def StatusTemporaryRedirect : Nat := 307
/-- The constant `http.StatusBadRequest`. -/
def StatusBadRequest : Nat := 400
/-- The constant `http.StatusNotFound`. -/
def StatusNotFound : Nat := 404

/-- The call `fmt.Fprintf(w, format)` without operands: formats into a buffer
and hands the buffer to `w.Write` in a single call, returning what `Write`
returns. -/
def Fprintf {σ : Type} (W : ResponseWriter σ) (w : σ) (format : String) :
    σ × Nat × Option String :=
  W.Write w (Sprintf format)

/-- The call `fmt.Fprintln(w, s)` for one string operand. -/
def Fprintln {σ : Type} (W : ResponseWriter σ) (w : σ) (s : String) :
    σ × Nat × Option String :=
  W.Write w (Sprintln [s])

/-- The type of `func(http.ResponseWriter, *http.Request)`: a handler works
against any implementation of the writer interface; it returns the writer
state it leaves behind and the request as it leaves it (Go passes the request
by pointer). -/
def HandlerFunc : Type 1 :=
  (σ : Type) → ResponseWriter σ → σ → Request → σ × Request

/-! ## `main.go` -/

/-- The raw string literal passed to `fmt.Fprintf` in `healthHandler`. -/
def healthBody : String :=
  "\x7b\"status\":\"healthy\",\"service\":\"muchtodo-api\"\x7d"

/-- The function `healthHandler` of `main.go`:
`w.WriteHeader(http.StatusOK)` followed by `fmt.Fprintf(w, literal)`, whose
results are discarded. -/
def healthHandler : HandlerFunc := fun _ W w r =>
  let w1 := W.WriteHeader w StatusOK
  let (w2, _, _) := Fprintf W w1 healthBody
  (w2, r)

/-! ## A recording response writer -/

/-- What a handler has done to its response, following the contract of
`http.ResponseWriter`: whether the status line is fixed, the status code, the
header map returned by `Header()`, and the bytes accepted by `Write`. -/
structure Response where
  wroteHeader : Bool
  Code : Nat
  HeaderMap : Header
  Body : String
  deriving DecidableEq, Repr

/-- A response on which nothing has been written yet. -/
def NewRecorder : Response :=
  { wroteHeader := false, Code := 200, HeaderMap := [], Body := "" }

/-- The method `WriteHeader`: the first call fixes the status code, a later
call is superfluous and ignored.  (Go panics on a code outside 100..999; no
caller in this development passes one.) -/
def Response.WriteHeader (rw : Response) (code : Nat) : Response :=
  if rw.wroteHeader then rw
  else { rw with wroteHeader := true, Code := code }

/-- The method `Write`: if `WriteHeader` has not been called yet it is called
with `http.StatusOK`; the bytes are appended to the body and all of them are
reported written. -/
def Response.Write (rw : Response) (buf : String) : Response × Nat × Option String :=
  let rw1 := rw.WriteHeader StatusOK
  ({ rw1 with Body := rw1.Body ++ buf }, buf.utf8ByteSize, none)

/-- The recording writer as an implementation of `http.ResponseWriter`. -/
def recorder : ResponseWriter Response where
  Header := fun rw => rw.HeaderMap
  SetHeader := fun rw h => { rw with HeaderMap := h }
  Write := Response.Write
  WriteHeader := Response.WriteHeader

/-! ## Writers whose methods may panic -/

namespace WithPanics

/-- The interface `http.ResponseWriter` over a writer state `σ`, for
implementations whose `Write` and `WriteHeader` may panic instead of
returning: the error of `Except` is the value of the panic. -/
structure ResponseWriter (σ : Type) where
  Header : σ → MuchTodo.Header
  SetHeader : σ → MuchTodo.Header → σ
  Write : σ → String → Except String (σ × Nat × Option String)
  WriteHeader : σ → Nat → Except String σ

/-- The call `fmt.Fprintf(w, format)` without operands; a panic of `w.Write`
passes through it. -/
def Fprintf {σ : Type} (W : ResponseWriter σ) (w : σ) (format : String) :
    Except String (σ × Nat × Option String) :=
  W.Write w (Sprintf format)

/-- The function `healthHandler` of `main.go` against such a writer: a panic
of `w.WriteHeader` or of `w.Write` ends the handler, which has no `recover`;
otherwise the results of `fmt.Fprintf` are discarded and the handler returns. -/
def healthHandler (σ : Type) (W : ResponseWriter σ) (w : σ) (r : Request) :
    Except String (σ × Request) :=
  match W.WriteHeader w StatusOK with
  | .error p => .error p
  | .ok w1 =>
    match Fprintf W w1 healthBody with
    | .error p => .error p
    | .ok (w2, _, _) => .ok (w2, r)

/-- A writer whose methods always return, seen as one that may panic. -/
def ofTotal {σ : Type} (W : MuchTodo.ResponseWriter σ) : ResponseWriter σ where
  Header := W.Header
  SetHeader := W.SetHeader
  Write := fun w buf => .ok (W.Write w buf)
  WriteHeader := fun w code => .ok (W.WriteHeader w code)

/-- The recording writer with the check of `WriteHeader` that Go makes
(`checkWriteHeaderCode`): a first call with a status code outside 100..999
panics. -/
def recorder : ResponseWriter Response where
  Header := fun rw => rw.HeaderMap
  SetHeader := fun rw h => { rw with HeaderMap := h }
  Write := fun rw buf => .ok (rw.Write buf)
  WriteHeader := fun rw code =>
    if rw.wroteHeader then .ok rw
    else if code < 100 ∨ code > 999 then .error ("invalid WriteHeader code " ++ toString code)
    else .ok (rw.WriteHeader code)

/-- A writer whose connection is gone: `Write` accepts nothing and returns an
error; the state counts the failed writes. -/
def brokenPipe : ResponseWriter Nat where
  Header := fun _ => []
  SetHeader := fun n _ => n
  Write := fun n _ => .ok (n + 1, 0, some "write: broken pipe")
  WriteHeader := fun n _ => .ok n

/-- A writer whose `Write` panics. -/
def panicking : ResponseWriter Nat where
  Header := fun _ => []
  SetHeader := fun n _ => n
  Write := fun _ _ => .error "write on a closed writer"
  WriteHeader := fun n _ => .ok n

end WithPanics

/-! ## `path.Clean` and the mux's `cleanPath` -/

/-- The backtracking loop of a `..` element in `path.Clean`: the write index
has just moved below `dropped`; it keeps moving down while it is above
`dotdot` and the character it left is not a slash.  `rev` is the output
buffer in reverse. -/
def backtrack (dotdot : Nat) : Char → List Char → List Char
  | _, [] => []
  | dropped, c :: cs =>
    if (c :: cs).length > dotdot ∧ dropped ≠ '/' then backtrack dotdot c cs
    else c :: cs

/-- Copies one path element (up to the next slash) onto the reversed output
buffer; returns the buffer and the unread input. -/
def copyElement : List Char → List Char → List Char × List Char
  | rev, [] => (rev, [])
  | rev, c :: cs => if c = '/' then (rev, c :: cs) else copyElement (c :: rev) cs

/-- Whether the input stands at the end of a path element: at the end of the
path or before a slash. -/
def atElementEnd : List Char → Bool
  | [] => true
  | c :: _ => c = '/'

/-- A real path element in `path.Clean`: a slash is added if needed and the
element is copied. -/
def realElement (rooted : Bool) (rev input : List Char) : List Char × List Char :=
  let rev1 := if (rooted ∧ rev.length ≠ 1) ∨ (!rooted ∧ rev.length ≠ 0)
    then '/' :: rev else rev
  copyElement rev1 input

/-- A `..` element in `path.Clean`: backtracks to the last slash when it can,
is kept when the path is not rooted, and is dropped at the root.  Returns the
output buffer (in reverse) and the new `dotdot` index. -/
def dotdotElement (rooted : Bool) (dotdot : Nat) (rev : List Char) : List Char × Nat :=
  if rev.length > dotdot then
    match rev with
    | [] => (rev, dotdot)
    | d :: rev1 => (backtrack dotdot d rev1, dotdot)
  else if !rooted then
    let rev1 := if rev.length > 0 then '/' :: rev else rev
    ('.' :: '.' :: rev1, rev1.length + 2)
  else (rev, dotdot)

/-- The main loop of `path.Clean` over the unread input, with the output
buffer in reverse and the index `dotdot` below which `..` cannot backtrack. -/
def cleanLoop (rooted : Bool) : Nat → Nat → List Char → List Char → List Char
  | 0, _, rev, _ => rev
  | fuel + 1, dotdot, rev, input =>
    match input with
    | [] => rev
    | c :: t =>
      if c = '/' then cleanLoop rooted fuel dotdot rev t
      else if c = '.' ∧ atElementEnd t then cleanLoop rooted fuel dotdot rev t
      else if c = '.' ∧ t.head? = some '.' ∧ atElementEnd t.tail then
        let (rev1, dotdot1) := dotdotElement rooted dotdot rev
        cleanLoop rooted fuel dotdot1 rev1 t.tail
      else
        let (rev1, rest) := realElement rooted rev input
        cleanLoop rooted fuel dotdot rev1 rest

/-- The function `path.Clean`: the shortest path equivalent to its argument
(no empty or `.` elements, `..` resolved, no trailing slash except for the
root; the empty path becomes `.`). -/
def Clean (path : List Char) : List Char :=
  match path with
  | [] => ['.']
  | c :: t =>
    let out :=
      if c = '/' then (cleanLoop true (path.length + 1) 1 ['/'] t).reverse
      else (cleanLoop false (path.length + 1) 0 [] path).reverse
    if out.isEmpty then ['.'] else out

/-- The function `cleanPath` of `net/http`: the canonical form of a request
path, rooted, cleaned by `path.Clean`, with a trailing slash kept. -/
def cleanPath (p : String) : String :=
  if p = "" then "/"
  else
    let q : List Char := if p.data.head? ≠ some '/' then '/' :: p.data else p.data
    let np := Clean q
    if q.getLast? = some '/' ∧ np ≠ ['/'] then
      if q.length = np.length + 1 ∧ np.isPrefixOf q then ⟨q⟩
      else ⟨np ++ ['/']⟩
    else ⟨np⟩

/-! ## `net/url`: the escaped form of a path -/

/-- The UTF-8 bytes of a character. -/
def utf8Bytes (c : Char) : List Nat :=
  if c.toNat < 128 then [c.toNat]
  else if c.toNat < 2048 then [192 + c.toNat / 64, 128 + c.toNat % 64]
  else if c.toNat < 65536 then
    [224 + c.toNat / 4096, 128 + c.toNat / 64 % 64, 128 + c.toNat % 64]
  else
    [240 + c.toNat / 262144, 128 + c.toNat / 4096 % 64, 128 + c.toNat / 64 % 64,
      128 + c.toNat % 64]

/-- The bytes of a string. -/
def bytesOf : List Char → List Nat
  | [] => []
  | c :: cs => utf8Bytes c ++ bytesOf cs

/-- The function `ishex` of `net/url`. -/
def ishex (c : Char) : Bool :=
  (48 ≤ c.toNat ∧ c.toNat ≤ 57) ∨ (97 ≤ c.toNat ∧ c.toNat ≤ 102) ∨
    (65 ≤ c.toNat ∧ c.toNat ≤ 70)

/-- The function `unhex` of `net/url`: the value of a hexadecimal digit. -/
def unhex (c : Char) : Nat :=
  if 48 ≤ c.toNat ∧ c.toNat ≤ 57 then c.toNat - 48
  else if 97 ≤ c.toNat ∧ c.toNat ≤ 102 then c.toNat - 97 + 10
  else c.toNat - 65 + 10

/-- The digit `"0123456789ABCDEF"[n]`. -/
def upperhex (n : Nat) : Char :=
  if n < 10 then Char.ofNat (48 + n) else Char.ofNat (55 + n)

/-- The function `shouldEscape(c, encodePath)` of `net/url` on a byte:
letters, digits, the marks `-_.~` and the reserved characters `$&+,/:;=@`
stay as they are in a path; every other byte is escaped. -/
def shouldEscape (b : Nat) : Bool :=
  if (97 ≤ b ∧ b ≤ 122) ∨ (65 ≤ b ∧ b ≤ 90) ∨ (48 ≤ b ∧ b ≤ 57) then false
  else if b = 45 ∨ b = 95 ∨ b = 46 ∨ b = 126 then false
  else if b = 36 ∨ b = 38 ∨ b = 43 ∨ b = 44 ∨ b = 47 ∨ b = 58 ∨ b = 59 ∨ b = 61 ∨ b = 64
    then false
  else true

/-- The escape `%XX` of a byte, with upper-case digits. -/
def escapeByte (b : Nat) : List Char :=
  ['%', upperhex (b / 16), upperhex (b % 16)]

/-- The escapes of a list of bytes. -/
def escapeBytes : List Nat → List Char
  | [] => []
  | b :: bs => escapeByte b ++ escapeBytes bs

/-- The function `escape(s, encodePath)` of `net/url`. -/
def escape : List Char → List Char
  | [] => []
  | c :: cs =>
    if shouldEscape c.toNat then escapeBytes (utf8Bytes c) ++ escape cs
    else c :: escape cs

/-- The function `unescape(s, encodePath)` of `net/url`: every `%XX` becomes
the byte it names; `none` when a `%` is not followed by two hexadecimal
digits. -/
def unescape : List Char → Option (List Nat)
  | [] => some []
  | c :: cs =>
    if c = '%' then
      match cs with
      | a :: b :: rest =>
        if ishex a ∧ ishex b then
          (unescape rest).map (fun t => (unhex a * 16 + unhex b) :: t)
        else none
      | _ => none
    else (unescape cs).map (fun t => utf8Bytes c ++ t)

/-- The function `validEncoded(s, encodePath)` of `net/url`: whether the text
is an acceptable encoding of a path: besides what `shouldEscape` leaves alone
it may hold `%`, the sub-delimiters `!$&'()*+,;=`, and `:@[]`. -/
def validEncoded : List Char → Bool
  | [] => true
  | c :: cs =>
    if c.toNat = 33 ∨ c.toNat = 36 ∨ c.toNat = 38 ∨ c.toNat = 39 ∨ c.toNat = 40 ∨
        c.toNat = 41 ∨ c.toNat = 42 ∨ c.toNat = 43 ∨ c.toNat = 44 ∨ c.toNat = 59 ∨
        c.toNat = 61 ∨ c.toNat = 58 ∨ c.toNat = 64 ∨ c.toNat = 91 ∨ c.toNat = 93 ∨
        c.toNat = 37 then validEncoded cs
    else if shouldEscape c.toNat then false
    else validEncoded cs

/-- The method `URL.EscapedPath`: `RawPath` when it is a valid encoding of
`Path`, otherwise the default encoding of `Path` (the asterisk stays as it
is). -/
def Request.EscapedPath (r : Request) : String :=
  if r.RawPath ≠ "" ∧ validEncoded r.RawPath.data = true ∧
      unescape r.RawPath.data = some (bytesOf r.Path.data) then r.RawPath
  else if r.Path = "*" then "*"
  else ⟨escape r.Path.data⟩

/-- The function `pathUnescape` of `net/http`: the unescaped bytes of a path
segment, or the segment as it is when it is not validly escaped. -/
def pathUnescape (seg : List Char) : List Nat :=
  match unescape seg with
  | some bytes => bytes
  | none => bytesOf seg

/-- The segments that follow the first one, read off the text after the
leading character of a path: `cur` collects the current segment in reverse.
A slash ends a segment; a slash at the very end of the path is a segment of
its own (`firstSegment` returns it as the segment `/`). -/
def segmentsFrom : List Char → List Char → List (List Char)
  | cur, [] => [cur.reverse]
  | cur, c :: rest =>
    if c = '/' then
      cur.reverse :: (if rest.isEmpty then [['/']] else segmentsFrom [] rest)
    else segmentsFrom (c :: cur) rest

/-- The segments of a path as repeated calls of `firstSegment` produce them
while a path is matched: the leading character is dropped, the rest is cut
at the slashes. -/
def rawSegments : List Char → List (List Char)
  | [] => []
  | c :: t => if c = '/' ∧ t.isEmpty then [['/']] else segmentsFrom [] t

/-- The unescaped segments of a path. -/
def pathSegments (path : List Char) : List (List Nat) :=
  (rawSegments path).map pathUnescape

/-! ## Standard handlers of `net/http` -/

/-- String functions of `net/url`, `net` and `net/http` that the replies of
the router pass text through and that this development leaves open: the
properties below hold whatever they return. -/
structure Codec where
  /-- The text `(*url.URL).String()` of a URL with only `Path` and `RawQuery`. -/
  URLString : String → String → String
  /-- The absolute, cleaned form `http.Redirect` gives its `url` argument. -/
  resolve : Request → String → String
  /-- The function `hexEscapeNonASCII`. -/
  hexEscapeNonASCII : String → String
  /-- The function `htmlEscape`. -/
  htmlEscape : String → String
  /-- The function `stripHostPort`. -/
  stripHostPort : String → String

/-- The table behind `http.StatusText`: the registered status codes and their
texts. -/
def statusTexts : List (Nat × String) :=
  [(100, "Continue"), (101, "Switching Protocols"), (102, "Processing"),
    (103, "Early Hints"), (200, "OK"), (201, "Created"), (202, "Accepted"),
    (203, "Non-Authoritative Information"), (204, "No Content"),
    (205, "Reset Content"), (206, "Partial Content"), (207, "Multi-Status"),
    (208, "Already Reported"), (226, "IM Used"), (300, "Multiple Choices"),
    (301, "Moved Permanently"), (302, "Found"), (303, "See Other"),
    (304, "Not Modified"), (305, "Use Proxy"), (307, "Temporary Redirect"),
    (308, "Permanent Redirect"), (400, "Bad Request"), (401, "Unauthorized"),
    (402, "Payment Required"), (403, "Forbidden"), (404, "Not Found"),
    (405, "Method Not Allowed"), (406, "Not Acceptable"),
    (407, "Proxy Authentication Required"), (408, "Request Timeout"),
    (409, "Conflict"), (410, "Gone"), (411, "Length Required"),
    (412, "Precondition Failed"), (413, "Request Entity Too Large"),
    (414, "Request URI Too Long"), (415, "Unsupported Media Type"),
    (416, "Requested Range Not Satisfiable"), (417, "Expectation Failed"),
    (418, "I\x27m a teapot"), (421, "Misdirected Request"),
    (422, "Unprocessable Entity"), (423, "Locked"), (424, "Failed Dependency"),
    (425, "Too Early"), (426, "Upgrade Required"), (428, "Precondition Required"),
    (429, "Too Many Requests"), (431, "Request Header Fields Too Large"),
    (451, "Unavailable For Legal Reasons"), (500, "Internal Server Error"),
    (501, "Not Implemented"), (502, "Bad Gateway"), (503, "Service Unavailable"),
    (504, "Gateway Timeout"), (505, "HTTP Version Not Supported"),
    (506, "Variant Also Negotiates"), (507, "Insufficient Storage"),
    (508, "Loop Detected"), (510, "Not Extended"),
    (511, "Network Authentication Required")]

/-- The function `http.StatusText`: the text for a status code, empty when the
code is unknown. -/
def StatusText (code : Nat) : String :=
  match statusTexts.find? (fun p => p.1 = code) with
  | some p => p.2
  | none => ""

/-- The function `http.Error`: replies with the given message and status code
as plain text. -/
def Error (error : String) (code : Nat) : HandlerFunc := fun _ W w r =>
  let h := ((W.Header w).Del "Content-Length").Set "Content-Type" "text/plain; charset=utf-8"
  let w1 := W.SetHeader w (h.Set "X-Content-Type-Options" "nosniff")
  let w2 := W.WriteHeader w1 code
  ((Fprintln W w2 error).1, r)

/-- The function `http.NotFound`. -/
def NotFound : HandlerFunc :=
  Error "404 page not found" StatusNotFound

/-- The function `http.Redirect`, the body of the handler that
`http.RedirectHandler(url, code)` returns. -/
def Redirect (lib : Codec) (url : String) (code : Nat) : HandlerFunc := fun _ W w r =>
  let url := lib.resolve r url
  let h := W.Header w
  let hadCT := (h.lookup "Content-Type").isSome
  let h1 := h.Set "Location" (lib.hexEscapeNonASCII url)
  let h2 := if !hadCT ∧ (r.Method = "GET" ∨ r.Method = "HEAD")
    then h1.Set "Content-Type" "text/html; charset=utf-8" else h1
  let w1 := W.WriteHeader (W.SetHeader w h2) code
  if !hadCT ∧ r.Method = "GET" then
    let body := "<a href=\"" ++ lib.htmlEscape url ++ "\">" ++ StatusText code ++ "</a>.\n"
    ((Fprintln W w1 body).1, r)
  else (w1, r)

/-! ## `http.ServeMux` -/

/-- An entry of the routing table. -/
structure muxEntry where
  h : HandlerFunc
  pattern : String

/-- The routing table of `http.ServeMux`: the registered patterns `m` with
their handlers (at most one entry per pattern), the entries `es` whose
pattern ends in a slash, longest first, and whether some pattern names a
host. -/
structure ServeMux where
  m : List muxEntry
  es : List muxEntry
  hosts : Bool

/-- The map lookup `mux.m[key]`. -/
def ServeMux.get (mux : ServeMux) (key : String) : Option muxEntry :=
  mux.m.find? (fun e => e.pattern = key)

/-- The function `appendSorted`: inserts before the first entry with a
shorter pattern. -/
def appendSorted : List muxEntry → muxEntry → List muxEntry
  | [], e => [e]
  | x :: xs, e =>
    if x.pattern.utf8ByteSize < e.pattern.utf8ByteSize then e :: x :: xs
    else x :: appendSorted xs e

/-- The method `ServeMux.Handle`; a handler of `none` is Go's `nil`.  The
error is the message of the panic. -/
def ServeMux.Handle (mux : ServeMux) (pattern : String) (handler : Option HandlerFunc) :
    Except String ServeMux :=
  if pattern = "" then .error "http: invalid pattern"
  else match handler with
    | none => .error "http: nil handler"
    | some h =>
      if (mux.get pattern).isSome then
        .error ("http: multiple registrations for " ++ pattern)
      else
        let e : muxEntry := { h := h, pattern := pattern }
        .ok { m := e :: mux.m
              es := if pattern.data.getLast? = some '/' then appendSorted mux.es e else mux.es
              hosts := mux.hosts || decide (pattern.data.head? ≠ some '/') }

/-- The host part of a registered pattern: the text before its first slash. -/
def muxEntry.host (e : muxEntry) : List Char :=
  e.pattern.data.takeWhile (fun c => c ≠ '/')

/-- The path part of a registered pattern: the text from its first slash. -/
def muxEntry.path (e : muxEntry) : List Char :=
  e.pattern.data.dropWhile (fun c => c ≠ '/')

/-- Whether a registered pattern ends in a slash and so stands for the whole
subtree below its path. -/
def muxEntry.subtree (e : muxEntry) : Bool :=
  e.pattern.data.getLast? = some '/'

/-- The segments of a registered pattern, unescaped as `parsePattern` stores
them; the last segment of a subtree pattern is the slash that stands for the
rest of the path. -/
def muxEntry.segments (e : muxEntry) : List (List Nat) :=
  pathSegments e.path

/-- Whether a pattern (without method and wildcard) matches a host and the
segments of a path: the hosts are the same; the segments are the same, or,
for a subtree pattern, the path continues below the segments before the final
slash. -/
def muxEntry.matches (e : muxEntry) (host : List Char) (segs : List (List Nat)) : Bool :=
  decide (e.host = host) &&
    (if e.subtree then
      e.segments.dropLast.isPrefixOf segs && decide (e.segments.dropLast.length < segs.length)
    else decide (e.segments = segs))

/-- The match among the patterns of one host: a pattern that matches the
whole path first, then the longest subtree pattern above the path. -/
def ServeMux.matchHost (mux : ServeMux) (host : List Char) (segs : List (List Nat)) :
    Option muxEntry :=
  match mux.m.find? (fun e => !e.subtree && e.matches host segs) with
  | some e => some e
  | none => mux.es.find? (fun e => e.matches host segs)

/-- The method `routingNode.match(host, method, path)` on the registered
patterns: the patterns that name the host take precedence over those that
name none. -/
def ServeMux.treeMatch (mux : ServeMux) (host path : String) : Option muxEntry :=
  match (if host ≠ "" then mux.matchHost host.data (pathSegments path.data) else none) with
  | some e => some e
  | none => mux.matchHost [] (pathSegments path.data)

/-- The function `exactMatch`: whether the matched pattern matches the path
as a whole and not only as the root of a subtree. -/
def exactMatch (n : Option muxEntry) (path : String) : Bool :=
  match n with
  | none => false
  | some e =>
    if !e.subtree then true
    else decide (path.data.getLast? = some '/') &&
      decide (e.segments.length = path.data.count '/')

/-- The method `ServeMux.matchOrRedirect`: the matching entry, or, when `u` is
given and only the path with a slash appended has an exact match, the path
and query to redirect to. -/
def ServeMux.matchOrRedirect (mux : ServeMux) (host path : String) (u : Option Request) :
    Option muxEntry × Option (String × String) :=
  let n := mux.treeMatch host path
  match u with
  | none => (n, none)
  | some r =>
    if !exactMatch n path ∧ path.data.getLast? ≠ some '/' then
      if exactMatch (mux.treeMatch host (path ++ "/")) (path ++ "/") then
        (none, some (cleanPath r.Path ++ "/", r.RawQuery))
      else (n, none)
    else (n, none)

/-- The method `ServeMux.findHandler`: the handler to use for a request and
the pattern it is registered under.  The escaped path of the request is
matched; for every method but `CONNECT` it is cleaned first, and a path that
is not in canonical form, or that only lacks the trailing slash of a
registered subtree, is answered by a redirect handler. -/
def ServeMux.findHandler (lib : Codec) (mux : ServeMux) (r : Request) : HandlerFunc × String :=
  if r.Method = "CONNECT" then
    match (mux.matchOrRedirect r.URLHost r.EscapedPath (some r)).2 with
    | some u => (Redirect lib (lib.URLString u.1 u.2) StatusTemporaryRedirect, u.1)
    | none =>
      match (mux.matchOrRedirect r.Host r.EscapedPath none).1 with
      | some e => (e.h, e.pattern)
      | none => (NotFound, "")
  else
    let host := lib.stripHostPort r.Host
    let path := cleanPath r.EscapedPath
    match mux.matchOrRedirect host path (some r) with
    | (_, some u) => (Redirect lib (lib.URLString u.1 u.2) StatusTemporaryRedirect, u.1)
    | (n, none) =>
      if path ≠ r.EscapedPath then
        (Redirect lib (lib.URLString path r.RawQuery) StatusTemporaryRedirect,
          match n with
          | some e => e.pattern
          | none => "")
      else
        match n with
        | some e => (e.h, e.pattern)
        | none => (NotFound, "")

/-- The method `ServeMux.ServeHTTP`: dispatches the request to the handler
whose pattern matches; the asterisk-form target is refused. -/
def ServeMux.ServeHTTP (lib : Codec) (mux : ServeMux) : HandlerFunc := fun σ W w r =>
  if r.RequestURI = "*" then
    let w1 := if r.ProtoAtLeast 1 1
      then W.SetHeader w ((W.Header w).Set "Connection" "close") else w
    (W.WriteHeader w1 StatusBadRequest, r)
  else (mux.findHandler lib r).1 σ W w r

/-! ## The server of `net/http` -/

/-- The type `response` of `net/http`, the server's implementation of
`http.ResponseWriter` for one request: the method of the request, whether the
status line is fixed, the status code, the header map of the handler, the
declared `Content-Length` if any, the number of body bytes the handler has
written, and the body bytes put on the connection. -/
structure response where
  reqMethod : String
  wroteHeader : Bool
  status : Nat
  handlerHeader : Header
  contentLength : Option Nat
  written : Nat
  sent : String
  deriving DecidableEq, Repr

/-- The function `bodyAllowedForStatus`. -/
def bodyAllowedForStatus (status : Nat) : Bool :=
  if 100 ≤ status ∧ status ≤ 199 then false
  else if status = 204 then false
  else if status = 304 then false
  else true

/-- The method `Header.get`: the first value of `key`, or the empty string. -/
def Header.get (h : Header) (key : String) : String :=
  match h.lookup key with
  | some (v :: _) => v
  | _ => ""

/-- The value of decimal digits, `none` when a character is not a digit. -/
def decimal : Nat → List Char → Option Nat
  | acc, [] => some acc
  | acc, c :: cs => if c.isDigit then decimal (acc * 10 + (c.toNat - 48)) cs else none

/-- The declared length that `WriteHeader` reads from a `Content-Length`
value: `strconv.ParseInt(cl, 10, 64)` succeeds with a result that is not
negative. -/
def parseContentLength (cl : String) : Option Nat :=
  let (neg, digits) :=
    match cl.data with
    | '+' :: t => (false, t)
    | '-' :: t => (true, t)
    | t => (false, t)
  if digits.isEmpty then none
  else
    match decimal 0 digits with
    | none => none
    | some v =>
      if v ≥ 2 ^ 63 then none
      else if neg ∧ v ≠ 0 then none
      else some v

/-- The method `response.WriteHeader`: the first call with a final status code
fixes the status and reads the declared `Content-Length`, dropping an invalid
one from the header map; a later call is superfluous and ignored; an
informational code (1xx other than 101) is sent at once and leaves the final
status open.  (Go panics on a code outside 100..999; no caller in this
development passes one.) -/
def response.WriteHeader (w : response) (code : Nat) : response :=
  if w.wroteHeader then w
  else if 100 ≤ code ∧ code ≤ 199 ∧ code ≠ 101 then w
  else
    let cl := w.handlerHeader.get "Content-Length"
    if cl ≠ "" then
      match parseContentLength cl with
      | some v => { w with wroteHeader := true, status := code, contentLength := some v }
      | none =>
        { w with wroteHeader := true, status := code,
                 handlerHeader := w.handlerHeader.Del "Content-Length" }
    else { w with wroteHeader := true, status := code }

/-- The method `response.Write`: fixes the status to 200 if it is still open;
refuses a body the status does not allow or that exceeds the declared
`Content-Length`; otherwise accepts the bytes, which reach the connection
unless the request method is `HEAD`, whose reply has no body. -/
def response.Write (w : response) (buf : String) : response × Nat × Option String :=
  let w1 := w.WriteHeader StatusOK
  if buf.utf8ByteSize = 0 then (w1, 0, none)
  else if !bodyAllowedForStatus w1.status then
    (w1, 0, some "http: request method or response status code does not allow body")
  else
    let w2 := { w1 with written := w1.written + buf.utf8ByteSize }
    match w2.contentLength with
    | some n =>
      if w2.written > n then
        (w2, 0, some "http: wrote more than the declared Content-Length")
      else if w2.reqMethod = "HEAD" then (w2, buf.utf8ByteSize, none)
      else ({ w2 with sent := w2.sent ++ buf }, buf.utf8ByteSize, none)
    | none =>
      if w2.reqMethod = "HEAD" then (w2, buf.utf8ByteSize, none)
      else ({ w2 with sent := w2.sent ++ buf }, buf.utf8ByteSize, none)

/-- The server's writer as an implementation of `http.ResponseWriter`. -/
def serverWriter : ResponseWriter response where
  Header := fun w => w.handlerHeader
  SetHeader := fun w h => { w with handlerHeader := h }
  Write := response.Write
  WriteHeader := response.WriteHeader

/-- The writer the server creates for a request. -/
def newResponse (r : Request) : response :=
  { reqMethod := r.Method, wroteHeader := false, status := 0, handlerHeader := [],
    contentLength := none, written := 0, sent := "" }

/-- The method `response.finishRequest`, as far as the status goes: a handler
that returns without fixing the status gets 200. -/
def response.finishRequest (w : response) : response :=
  if w.wroteHeader then w else w.WriteHeader StatusOK

/-- The handler `globalOptionsHandler`, which answers `OPTIONS *`: it declares
an empty body and writes nothing. -/
def globalOptionsHandler : HandlerFunc := fun _ W w r =>
  (W.SetHeader w ((W.Header w).Set "Content-Length" "0"), r)

/-- The method `serverHandler.ServeHTTP`: a `nil` handler of the server
selects the default mux; the server answers `OPTIONS *` itself. -/
def serverHandler (lib : Codec) (handler : Option HandlerFunc) (defaultMux : ServeMux) :
    HandlerFunc := fun σ W w r =>
  if r.RequestURI = "*" ∧ r.Method = "OPTIONS" then globalOptionsHandler σ W w r
  else
    match handler with
    | some h => h σ W w r
    | none => defaultMux.ServeHTTP lib σ W w r

/-! ## The process: `http.HandleFunc`, `fmt.Println`, `http.ListenAndServe`, `log.Fatal` -/

/-- What a call of `http.ListenAndServe` does in a given run: it binds the
listener and serves until the process is killed, or it returns an error (a bind
failure or a later failure of the accept loop; `none` is Go's `nil`). -/
inductive ListenResult
  | serves
  | returns (err : Option String)
  deriving DecidableEq, Repr

/-- The surroundings of one run of the program: command line, environment
variables, the header (prefix, date and time) the standard logger puts before
a message, and what listening on an address does. -/
structure Env where
  Args : List String
  Environ : List String
  logHeader : String
  ListenAndServe : String → ListenResult

/-- The observable actions of the process, in the order they happen. -/
inductive Event
  | handleFunc (pattern : String)
  | stdout (text : String)
  | listenAndServe (addr : String) (handlerIsNil : Bool)
  | stderr (text : String)
  deriving DecidableEq, Repr

/-- The state of the process: the package variable `http.DefaultServeMux`
and the actions so far. -/
structure World where
  DefaultServeMux : ServeMux
  trace : List Event

/-- The ways control leaves `main` other than by returning: `os.Exit(code)`,
blocking in the accept loop for the rest of the process lifetime, a panic. -/
inductive Stop
  | exit (code : Nat)
  | serving
  | panic (msg : String)
  deriving DecidableEq, Repr

/-- The result of running a piece of the program: it returns a value, or
control leaves it; either way with the state of the process. -/
inductive Step (α : Type) : Type 1
  | next (a : α) (w : World)
  | stop (s : Stop) (w : World)

/-- A piece of the program, run from a state of the process. -/
def Proc (α : Type) : Type 1 := World → Step α

/-- Sequencing of statements. -/
def Proc.bind {α β : Type} (p : Proc α) (f : α → Proc β) : Proc β := fun w =>
  match p w with
  | .next a w1 => f a w1
  | .stop s w1 => .stop s w1

instance : Monad Proc where
  pure := fun a w => .next a w
  bind := Proc.bind

/-- Records an action of the process. -/
def emit (e : Event) : Proc Unit := fun w =>
  .next () { w with trace := w.trace ++ [e] }

/-- The function `http.HandleFunc`: registers the handler on
`http.DefaultServeMux`; a registration the mux refuses is a panic. -/
def HandleFunc (pattern : String) (handler : Option HandlerFunc) : Proc Unit := fun w =>
  match handler with
  | none => .stop (.panic "http: nil handler") w
  | some h =>
    match w.DefaultServeMux.Handle pattern (some h) with
    | .error msg => .stop (.panic msg) w
    | .ok mux => .next () { DefaultServeMux := mux, trace := w.trace ++ [.handleFunc pattern] }

/-- The function `fmt.Println` for string operands: writes the operands and
a newline to standard output. -/
def Println (a : List String) : Proc Unit :=
  emit (.stdout (Sprintln a))

/-- The function `http.ListenAndServe(addr, handler)`; a `handler` of `none`
is Go's `nil`, which selects `http.DefaultServeMux`.  The call either never
returns or returns an error. -/
def ListenAndServe (env : Env) (addr : String) (handler : Option HandlerFunc) :
    Proc (Option String) := fun w =>
  let w1 := { w with trace := w.trace ++ [.listenAndServe addr handler.isNone] }
  match env.ListenAndServe addr with
  | .serves => .stop .serving w1
  | .returns err => .next err w1

/-- The text `fmt.Sprint(err)` of an error value. -/
def Sprint (err : Option String) : String :=
  match err with
  | none => "<nil>"
  | some msg => msg

/-- The line the standard logger writes for a message: its header, the message
and a newline unless the message already ends in one. -/
def logLine (env : Env) (msg : String) : String :=
  env.logHeader ++ msg ++ (if msg.data.getLast? = some '\n' then "" else "\n")

/-- The function `log.Fatal(err)`: `log.Print(err)` on the standard logger,
which writes to standard error, followed by `os.Exit(1)`. -/
def Fatal (env : Env) (err : Option String) : Proc Unit := fun w =>
  .stop (.exit 1) { w with trace := w.trace ++ [.stderr (logLine env (Sprint err))] }

/-- The function `main` of `main.go`. -/
def main (env : Env) : Proc Unit := do
  HandleFunc "/health" (some healthHandler)
  Println ["Server starting on :8080"]
  let err ← ListenAndServe env ":8080" none
  Fatal env err

/-- The process at start: an empty default mux and no action yet. -/
def World.start : World :=
  { DefaultServeMux := { m := [], es := [], hosts := false }, trace := [] }

/-- A run of the program. -/
def run (env : Env) : Step Unit :=
  main env World.start

/-- The state of the process at the end of a piece of the program. -/
def Step.world {α : Type} : Step α → World
  | .next _ w => w
  | .stop _ w => w

/-- The exit code with which the process ends by itself, if it does: `0` when
`main` returns, the argument of `os.Exit`, `2` after a panic; `none` while the
process serves, which only an external kill ends. -/
def Step.exitCode {α : Type} : Step α → Option Nat
  | .next _ _ => some 0
  | .stop (.exit code) _ => some code
  | .stop .serving _ => none
  | .stop (.panic _) _ => some 2

/-- Whether `main` returned normally. -/
def Step.returned {α : Type} : Step α → Bool
  | .next _ _ => true
  | .stop _ _ => false

/-- The texts written to standard output, in order. -/
def stdoutOf (t : List Event) : List String :=
  t.filterMap (fun e => match e with
    | .stdout s => some s
    | _ => none)

/-- The patterns registered on the default mux, in order. -/
def patternsOf (t : List Event) : List String :=
  t.filterMap (fun e => match e with
    | .handleFunc p => some p
    | _ => none)

/-- The texts written to standard error, in order. -/
def stderrOf (t : List Event) : List String :=
  t.filterMap (fun e => match e with
    | .stderr s => some s
    | _ => none)

/-- The listen calls made, in order: address and whether the handler
argument was `nil`. -/
def listensOf (t : List Event) : List (String × Bool) :=
  t.filterMap (fun e => match e with
    | .listenAndServe a d => some (a, d)
    | _ => none)

/-- The routing table that `main` registers: the default mux as the run of
the program leaves it (it is the same for every environment). -/
def mainMux : ServeMux :=
  (run { Args := [], Environ := [], logHeader := "", ListenAndServe := fun _ => .serves }).world.DefaultServeMux

/-- Serving a sequence of requests with `healthHandler`, each with a fresh
response writer; the responses in order. -/
def serveEach (rs : List Request) : List Response :=
  rs.map (fun r => (healthHandler Response recorder NewRecorder r).1)

/-- A writer that logs the calls made on it. -/
inductive Call
  | setHeader (h : Header)
  | writeHeader (code : Nat)
  | write (buf : String)
  deriving DecidableEq, Repr

/-- The call-logging writer as an implementation of `http.ResponseWriter`:
its state is the list of calls so far; its header map is always empty. -/
def callLog : ResponseWriter (List Call) where
  Header := fun _ => []
  SetHeader := fun calls h => calls ++ [.setHeader h]
  Write := fun calls buf => (calls ++ [.write buf], buf.utf8ByteSize, none)
  WriteHeader := fun calls code => calls ++ [.writeHeader code]

/-! ## JSON documents (RFC 8259) -/

/-- A JSON value; a number keeps its text, an object keeps its members in
document order. -/
inductive JSON
  | null
  | bool (b : Bool)
  | number (text : String)
  | string (s : String)
  | array (items : List JSON)
  | object (members : List (String × JSON))

namespace JSON

/-- Insignificant whitespace: space, tab, line feed, carriage return. -/
def skipWS : List Char → List Char
  | [] => []
  | c :: cs => if c = ' ' ∨ c = '\t' ∨ c = '\n' ∨ c = '\r' then skipWS cs else c :: cs

/-- The value of a hexadecimal digit. -/
def hexValue (c : Char) : Option Nat :=
  if '0' ≤ c ∧ c ≤ '9' then some (c.toNat - 48)
  else if 'a' ≤ c ∧ c ≤ 'f' then some (c.toNat - 87)
  else if 'A' ≤ c ∧ c ≤ 'F' then some (c.toNat - 55)
  else none

/-- The characters of a string after its opening quote, up to the closing
quote: any character from U+0020 on except the quote and the backslash, or an
escape sequence.  Returns the decoded text (in reverse in `acc`) and the text
after the closing quote. -/
def stringBody : List Char → List Char → Option (String × List Char)
  | _, [] => none
  | acc, '"' :: rest => some (⟨acc.reverse⟩, rest)
  | acc, '\\' :: 'u' :: a :: b :: c :: d :: rest =>
    match hexValue a, hexValue b, hexValue c, hexValue d with
    | some x, some y, some z, some w =>
      stringBody (Char.ofNat (((x * 16 + y) * 16 + z) * 16 + w) :: acc) rest
    | _, _, _, _ => none
  | acc, '\\' :: e :: rest =>
    if e = '"' then stringBody ('"' :: acc) rest
    else if e = '\\' then stringBody ('\\' :: acc) rest
    else if e = '/' then stringBody ('/' :: acc) rest
    else if e = 'b' then stringBody (Char.ofNat 8 :: acc) rest
    else if e = 'f' then stringBody (Char.ofNat 12 :: acc) rest
    else if e = 'n' then stringBody ('\n' :: acc) rest
    else if e = 'r' then stringBody ('\r' :: acc) rest
    else if e = 't' then stringBody ('\t' :: acc) rest
    else none
  | acc, c :: rest =>
    if c = '\\' ∨ c.toNat < 32 then none else stringBody (c :: acc) rest

/-- A run of decimal digits and the text after it. -/
def digits : List Char → List Char × List Char
  | [] => ([], [])
  | c :: cs =>
    if c.isDigit then ((digits cs).1.cons c, (digits cs).2) else ([], c :: cs)

/-- A number: optional minus, integer part without a leading zero, optional
fraction, optional exponent.  Returns its text and the text after it. -/
def numberText (s : List Char) : Option (List Char × List Char) :=
  let (sign, s1) := match s with
    | '-' :: t => (['-'], t)
    | t => ([], t)
  let (int, s2) := digits s1
  if int = [] ∨ (int.head? = some '0' ∧ int.length > 1) then none
  else
    let frac : Option (List Char × List Char) := match s2 with
      | '.' :: t =>
        let (f, u) := digits t
        if f = [] then none else some ('.' :: f, u)
      | t => some ([], t)
    match frac with
    | none => none
    | some (f, s3) =>
      match s3 with
      | e :: t =>
        if e = 'e' ∨ e = 'E' then
          let (sg, u) := match t with
            | '+' :: v => (['+'], v)
            | '-' :: v => (['-'], v)
            | v => ([], v)
          let (x, v) := digits u
          if x = [] then none else some (sign ++ int ++ f ++ e :: sg ++ x, v)
        else some (sign ++ int ++ f, s3)
      | [] => some (sign ++ int ++ f, [])

/-- Drops the characters of `word` from the front of the text, if they are
there. -/
def keyword (word : List Char) (s : List Char) : Option (List Char) :=
  if word.isPrefixOf s then some (s.drop word.length) else none

mutual
/-- A JSON value at the front of the text (after optional whitespace), with
the text after it.  `fuel` bounds the nesting and the number of elements; the
length of the text is always enough. -/
def value : Nat → List Char → Option (JSON × List Char)
  | 0, _ => none
  | fuel + 1, s =>
    match skipWS s with
    | [] => none
    | c :: t =>
      if c = '{' then
        match skipWS t with
        | '}' :: rest => some (.object [], rest)
        | _ => (members fuel t).map (fun p => (.object p.1, p.2))
      else if c = '[' then
        match skipWS t with
        | ']' :: rest => some (.array [], rest)
        | _ => (elements fuel t).map (fun p => (.array p.1, p.2))
      else if c = '"' then (stringBody [] t).map (fun p => (.string p.1, p.2))
      else if c = 't' then (keyword "true".data (c :: t)).map (fun r => (.bool true, r))
      else if c = 'f' then (keyword "false".data (c :: t)).map (fun r => (.bool false, r))
      else if c = 'n' then (keyword "null".data (c :: t)).map (fun r => (.null, r))
      else (numberText (c :: t)).map (fun p => (.number ⟨p.1⟩, p.2))

/-- The elements of a non-empty array after its opening bracket, up to and
including the closing bracket. -/
def elements : Nat → List Char → Option (List JSON × List Char)
  | 0, _ => none
  | fuel + 1, s =>
    match value fuel s with
    | none => none
    | some (v, rest) =>
      match skipWS rest with
      | ']' :: rest1 => some ([v], rest1)
      | ',' :: rest1 => (elements fuel rest1).map (fun p => (v :: p.1, p.2))
      | _ => none

/-- The members of a non-empty object after its opening brace, up to and
including the closing brace. -/
def members : Nat → List Char → Option (List (String × JSON) × List Char)
  | 0, _ => none
  | fuel + 1, s =>
    match skipWS s with
    | '"' :: t =>
      match stringBody [] t with
      | none => none
      | some (name, rest) =>
        match skipWS rest with
        | ':' :: rest1 =>
          match value fuel rest1 with
          | none => none
          | some (v, rest2) =>
            match skipWS rest2 with
            | '}' :: rest3 => some ([(name, v)], rest3)
            | ',' :: rest3 => (members fuel rest3).map (fun p => ((name, v) :: p.1, p.2))
            | _ => none
        | _ => none
    | _ => none
end

/-- Parses a JSON text: one value, surrounded by optional whitespace, and
nothing else; `none` when the text is not well-formed. -/
def parse (text : String) : Option JSON :=
  match value (text.length + 1) text.data with
  | some (v, rest) => if skipWS rest = [] then some v else none
  | none => none

/-- The text of a string value; `none` for any other value. -/
def asString : JSON → Option String
  | .string s => some s
  | _ => none

/-- The members of a JSON text that is an object all of whose members are
strings: the member names with their texts, in document order. -/
def stringMembers (text : String) : Option (List (String × String)) :=
  match parse text with
  | some (.object ms) => ms.mapM (fun m => (asString m.2).map (fun s => (m.1, s)))
  | _ => none

end JSON

/-- The bytes of the segment `health`. -/
def healthSegment : List Nat := [104, 101, 97, 108, 116, 104]

/-- The reply of the server that `main` starts to a request that its reader
has accepted: the state of the server's writer after the handler of the
server (a `nil` handler, hence the default mux with the routing table of
`main`) has run and the request is finished. -/
def serve (lib : Codec) (r : Request) : response :=
  ((serverHandler lib none mainMux) response serverWriter (newResponse r) r).1.finishRequest

/-- What the request reader of the server guarantees of the URL it builds: the
escaped path is empty (a target without a path), the asterisk, or starts with
a slash. -/
def Request.fromServer (r : Request) : Prop :=
  r.EscapedPath = "" ∨ r.EscapedPath = "*" ∨ r.EscapedPath.data.head? = some '/'

instance (r : Request) : Decidable r.fromServer :=
  inferInstanceAs (Decidable
    (r.EscapedPath = "" ∨ r.EscapedPath = "*" ∨ r.EscapedPath.data.head? = some '/'))

/-- A choice of the open string functions for concrete runs: paths and
queries are passed through unescaped. -/
def plainCodec : Codec where
  URLString := fun path query => if query = "" then path else path ++ "?" ++ query
  resolve := fun _ url => url
  hexEscapeNonASCII := fun s => s
  htmlEscape := fun s => s
  stripHostPort := fun s => s

/-- A request with the given method and path, otherwise plain HTTP/1.1. -/
def request (method path : String) : Request :=
  { Method := method, URLHost := "", Path := path, RawPath := "", RawQuery := "",
    Host := "localhost:8080", ProtoMajor := 1, ProtoMinor := 1, Header := [], Body := "" }

/-- An environment in which port 8080 is already taken. -/
def portTaken : Env :=
  { Args := ["/app/main"], Environ := ["PORT=9090"], logHeader := "2024/01/01 00:00:00 ",
    ListenAndServe := fun _ => .returns (some "listen tcp :8080: bind: address already in use") }

/-! ## Lemmas: the handler and the table -/

theorem Sprintf_healthBody : Sprintf healthBody = healthBody := by decide

theorem healthHandler_eq (σ : Type) (W : ResponseWriter σ) (w : σ) (r : Request) :
    healthHandler σ W w r = ((W.Write (W.WriteHeader w StatusOK) healthBody).1, r) := by
  simp only [healthHandler, Fprintf, Sprintf_healthBody]

theorem healthHandler_recorder (w : Response) (r : Request) :
    (healthHandler Response recorder w r).1 =
      { wroteHeader := true
        Code := if w.wroteHeader then w.Code else 200
        HeaderMap := w.HeaderMap
        Body := w.Body ++ healthBody } := by
  rw [healthHandler_eq]
  cases w with
  | mk wrote code hdr body =>
    cases wrote <;> simp [recorder, Response.Write, Response.WriteHeader, StatusOK]

theorem mainMux_eq :
    mainMux = { m := [{ h := healthHandler, pattern := "/health" }], es := [], hosts := false } :=
  rfl

theorem RequestURI_star (r : Request) : r.RequestURI = "*" ↔ r.Path = "*" ∧ r.RawQuery = "" := by
  unfold Request.RequestURI
  by_cases hq : r.RawQuery = ""
  · simp [hq]
  · simp only [hq, if_false, and_false, iff_false]
    intro h
    have h1 := congrArg (fun t : String => t.length) h
    simp [String.length_append] at h1
    have h2 : r.RawQuery.length ≠ 0 := by
      intro h3
      apply hq
      cases hr : r.RawQuery with
      | mk d =>
        rw [hr] at h3
        have : d = [] := List.length_eq_zero.mp h3
        simp [this]
    have h4 : ("?" : String).length = 1 := by decide
    have h5 : ("*" : String).length = 1 := by decide
    omega

/-! ## Lemmas: bytes and escaping -/

theorem char_toNat_lt (c : Char) : c.toNat < 1114112 := by
  have h := c.valid
  simp only [UInt32.isValidChar, Nat.isValidChar] at h
  have : c.toNat = c.val.toNat := rfl
  omega

theorem utf8Bytes_lt (c : Char) : ∀ b ∈ utf8Bytes c, b < 256 := by
  intro b hb
  have hc := char_toNat_lt c
  unfold utf8Bytes at hb
  split at hb
  · simp at hb; omega
  · split at hb
    · simp at hb; omega
    · split at hb
      · simp at hb; omega
      · simp at hb; omega

theorem utf8Bytes_ascii (c : Char) (h : c.toNat < 128) : utf8Bytes c = [c.toNat] := by
  simp [utf8Bytes, h]

theorem utf8Bytes_head (c : Char) (h : ¬ c.toNat < 128) :
    ∃ b t, utf8Bytes c = b :: t ∧ 128 ≤ b := by
  unfold utf8Bytes
  rw [if_neg h]
  split
  · exact ⟨_, _, rfl, by omega⟩
  · split
    · exact ⟨_, _, rfl, by omega⟩
    · exact ⟨_, _, rfl, by omega⟩

theorem char_eq_of_toNat_eq (c d : Char) (h : c.toNat = d.toNat) : c = d := by
  apply Char.ext
  apply UInt32.ext
  exact h

theorem bytesOf_ascii_inj (q : List Char) (hq : ∀ c ∈ q, c.toNat < 128) :
    ∀ p : List Char, bytesOf p = bytesOf q → p = q := by
  induction q with
  | nil =>
    intro p hp
    cases p with
    | nil => rfl
    | cons c cs =>
      exfalso
      simp only [bytesOf] at hp
      by_cases hc : c.toNat < 128
      · rw [utf8Bytes_ascii c hc] at hp
        simp at hp
      · obtain ⟨b, t, hbt, _⟩ := utf8Bytes_head c hc
        rw [hbt] at hp
        simp at hp
  | cons d ds ih =>
    intro p hp
    have hd : d.toNat < 128 := hq d (List.mem_cons_self _ _)
    have hds : ∀ c ∈ ds, c.toNat < 128 := fun c hc => hq c (List.mem_cons_of_mem _ hc)
    cases p with
    | nil =>
      exfalso
      simp only [bytesOf] at hp
      rw [utf8Bytes_ascii d hd] at hp
      simp at hp
    | cons c cs =>
      simp only [bytesOf] at hp
      rw [utf8Bytes_ascii d hd] at hp
      by_cases hc : c.toNat < 128
      · rw [utf8Bytes_ascii c hc] at hp
        simp only [List.singleton_append, List.cons.injEq] at hp
        rw [char_eq_of_toNat_eq c d hp.1, ih hds cs hp.2]
      · exfalso
        obtain ⟨b, t, hbt, hb⟩ := utf8Bytes_head c hc
        rw [hbt] at hp
        simp only [List.cons_append, List.singleton_append, List.cons.injEq] at hp
        omega

theorem hex_roundtrip (n : Nat) (h : n < 16) :
    ishex (upperhex n) = true ∧ unhex (upperhex n) = n := by
  interval_cases n <;> decide

theorem unescape_escapeByte (b : Nat) (hb : b < 256) (rest : List Char) :
    unescape (escapeByte b ++ rest) = (unescape rest).map (fun t => b :: t) := by
  have h1 := hex_roundtrip (b / 16) (by omega)
  have h2 := hex_roundtrip (b % 16) (by omega)
  have h3 : b / 16 * 16 + b % 16 = b := by omega
  show unescape ('%' :: upperhex (b / 16) :: upperhex (b % 16) :: rest) = _
  rw [unescape]
  simp [h1.1, h2.1, h1.2, h2.2, h3]

theorem unescape_escapeBytes (bs : List Nat) (hbs : ∀ b ∈ bs, b < 256) (rest : List Char) :
    unescape (escapeBytes bs ++ rest) = (unescape rest).map (fun t => bs ++ t) := by
  induction bs with
  | nil => simp [escapeBytes]
  | cons b bs ih =>
    have hb : b < 256 := hbs b (List.mem_cons_self _ _)
    have hr : ∀ x ∈ bs, x < 256 := fun x hx => hbs x (List.mem_cons_of_mem _ hx)
    simp only [escapeBytes, List.append_assoc]
    rw [unescape_escapeByte b hb, ih hr]
    cases unescape rest <;> simp

theorem unescape_cons_plain (c : Char) (hc : c ≠ '%') (rest : List Char) :
    unescape (c :: rest) = (unescape rest).map (fun t => utf8Bytes c ++ t) := by
  cases rest with
  | nil => simp [unescape, hc]
  | cons a t =>
    cases t with
    | nil => simp [unescape, hc]
    | cons b u => simp [unescape, hc]

theorem unescape_escape (p : List Char) : unescape (escape p) = some (bytesOf p) := by
  induction p with
  | nil => rfl
  | cons c cs ih =>
    simp only [escape]
    split
    · rw [unescape_escapeBytes _ (utf8Bytes_lt c), ih]
      rfl
    · rename_i hs
      have hc : c ≠ '%' := by
        intro h
        apply hs
        rw [h]
        decide
      rw [unescape_cons_plain c hc, ih]
      rfl

theorem unescape_slash_mem (s : List Char) :
    ∀ b, unescape s = some b → '/' ∈ s → 47 ∈ b := by
  induction s using unescape.induct with
  | case1 => intro b _ h; simp at h
  | case2 a c rest hh ih =>
    intro b hb hm
    simp only [unescape, if_true, hh, and_self] at hb
    cases hr : unescape rest with
    | none => simp [hr] at hb
    | some t =>
      simp only [hr, Option.map_some', Option.some.injEq] at hb
      rw [← hb]
      have ha : a ≠ '/' := by
        intro h
        rw [h] at hh
        exact absurd hh.1 (by decide)
      have hc : c ≠ '/' := by
        intro h
        rw [h] at hh
        exact absurd hh.2 (by decide)
      simp only [List.mem_cons] at hm
      rcases hm with h | h | h | h
      · exact absurd h (by decide)
      · exact absurd h.symm ha
      · exact absurd h.symm hc
      · exact List.mem_cons_of_mem _ (ih t hr h)
  | case3 a c rest hh =>
    intro b hb _
    simp [unescape, hh] at hb
  | case4 cs hcs =>
    intro b hb _
    cases cs with
    | nil => simp [unescape] at hb
    | cons a t =>
      cases t with
      | nil => simp [unescape] at hb
      | cons c rest => exact absurd rfl (hcs a c rest)
  | case5 c cs hc ih =>
    intro b hb hm
    rw [unescape_cons_plain c hc] at hb
    cases hr : unescape cs with
    | none => simp [hr] at hb
    | some t =>
      simp only [hr, Option.map_some', Option.some.injEq] at hb
      rw [← hb]
      simp only [List.mem_cons] at hm
      rcases hm with h | h
      · rw [← h]
        exact List.mem_append_left _ (by decide)
      · exact List.mem_append_right _ (ih t hr h)

/-! ## Lemmas: segments and canonical paths -/

theorem segmentsFrom_ne_nil (s : List Char) : ∀ cur, segmentsFrom cur s ≠ [] := by
  induction s with
  | nil => intro cur; simp [segmentsFrom]
  | cons c rest ih =>
    intro cur
    simp only [segmentsFrom]
    split
    · simp
    · exact ih _

theorem segmentsFrom_singleton (s : List Char) :
    ∀ cur x, segmentsFrom cur s = [x] → '/' ∉ s ∧ x = cur.reverse ++ s := by
  induction s with
  | nil =>
    intro cur x h
    simp only [segmentsFrom, List.cons.injEq, and_true] at h
    simp [h]
  | cons c rest ih =>
    intro cur x h
    simp only [segmentsFrom] at h
    split at h
    · exfalso
      simp only [List.cons.injEq] at h
      have h2 := h.2
      split at h2
      · simp at h2
      · exact segmentsFrom_ne_nil rest [] h2
    · rename_i hc
      obtain ⟨h1, h2⟩ := ih _ _ h
      refine ⟨?_, ?_⟩
      · simp only [List.mem_cons, not_or]
        exact ⟨fun e => hc e.symm, h1⟩
      · simp [h2]

theorem segmentsFrom_of_no_slash (s : List Char) :
    ∀ cur, '/' ∉ s → segmentsFrom cur s = [cur.reverse ++ s] := by
  induction s with
  | nil => intro cur _; simp [segmentsFrom]
  | cons c rest ih =>
    intro cur h
    simp only [List.mem_cons, not_or] at h
    have hc : ¬ c = '/' := fun e => h.1 e.symm
    simp only [segmentsFrom, hc, if_false]
    rw [ih _ h.2]
    simp

theorem healthSegment_eq : healthSegment = bytesOf "health".data := by decide

theorem pathUnescape_health (t : List Char) (h : pathUnescape t = healthSegment) :
    unescape t = some healthSegment := by
  unfold pathUnescape at h
  cases hu : unescape t with
  | some b =>
    rw [hu] at h
    simp only at h
    rw [h]
  | none =>
    exfalso
    rw [hu] at h
    simp only at h
    rw [healthSegment_eq] at h
    have ht := bytesOf_ascii_inj "health".data (by decide) t h
    rw [ht] at hu
    revert hu
    decide

theorem pathSegments_health (E : List Char) (h : pathSegments E = [healthSegment]) :
    ∃ c t, E = c :: t ∧ '/' ∉ t ∧ unescape t = some healthSegment := by
  unfold pathSegments at h
  cases E with
  | nil => simp [rawSegments] at h
  | cons c t =>
    refine ⟨c, t, rfl, ?_⟩
    simp only [rawSegments] at h
    split at h
    · exfalso
      revert h
      decide
    · cases hs : segmentsFrom [] t with
      | nil => exact absurd hs (segmentsFrom_ne_nil t [])
      | cons x xs =>
        rw [hs] at h
        simp only [List.map_cons, List.cons.injEq, List.map_eq_nil_iff] at h
        rw [h.2] at hs
        obtain ⟨h1, h2⟩ := segmentsFrom_singleton t [] x hs
        simp only [List.reverse_nil, List.nil_append] at h2
        rw [h2] at h
        exact ⟨h1, pathUnescape_health t h.1⟩

theorem pathSegments_of_health (t : List Char) (h1 : '/' ∉ t)
    (h2 : unescape t = some healthSegment) :
    pathSegments ('/' :: t) = [healthSegment] := by
  have ht : t ≠ [] := by
    intro e
    rw [e] at h2
    revert h2
    decide
  have hne : t.isEmpty = false := by
    cases t with
    | nil => exact absurd rfl ht
    | cons a b => rfl
  simp only [pathSegments, rawSegments, hne, and_false, if_false, Bool.false_eq_true]
  rw [segmentsFrom_of_no_slash t [] h1]
  simp [pathUnescape, h2]

theorem copyElement_of_no_slash (s : List Char) :
    ∀ rev, '/' ∉ s → copyElement rev s = (s.reverse ++ rev, []) := by
  induction s with
  | nil => intro rev _; simp [copyElement]
  | cons c rest ih =>
    intro rev h
    simp only [List.mem_cons, not_or] at h
    have hc : ¬ c = '/' := fun e => h.1 e.symm
    simp only [copyElement, hc, if_false]
    rw [ih _ h.2]
    simp

theorem atElementEnd_of_no_slash (t : List Char) (h : '/' ∉ t) :
    atElementEnd t = true ↔ t = [] := by
  cases t with
  | nil => simp [atElementEnd]
  | cons c u =>
    simp only [List.mem_cons, not_or] at h
    have hc : ¬ c = '/' := fun e => h.1 e.symm
    simp [atElementEnd, hc]

theorem cleanLoop_nil (rooted : Bool) (fuel dotdot : Nat) (rev : List Char) :
    cleanLoop rooted fuel dotdot rev [] = rev := by
  cases fuel <;> rfl

theorem cleanLoop_real (rooted : Bool) (fuel dotdot : Nat) (rev : List Char) (c : Char)
    (t : List Char) (hc : ¬ c = '/') (hd1 : ¬ (c = '.' ∧ atElementEnd t = true))
    (hd2 : ¬ (c = '.' ∧ t.head? = some '.' ∧ atElementEnd t.tail = true)) :
    cleanLoop rooted (fuel + 1) dotdot rev (c :: t) =
      cleanLoop rooted fuel dotdot (realElement rooted rev (c :: t)).1
        (realElement rooted rev (c :: t)).2 := by
  rw [cleanLoop]
  simp only [hc, hd1, hd2, if_false]

theorem Clean_single (s : List Char) (h0 : s ≠ []) (h1 : '/' ∉ s) (h2 : s ≠ ['.'])
    (h3 : s ≠ ['.', '.']) : Clean ('/' :: s) = '/' :: s := by
  cases s with
  | nil => exact absurd rfl h0
  | cons c t =>
    have hm := h1
    simp only [List.mem_cons, not_or] at hm
    have hc : ¬ c = '/' := fun e => hm.1 e.symm
    have hd1 : ¬ (c = '.' ∧ atElementEnd t = true) := by
      intro ⟨e1, e2⟩
      rw [atElementEnd_of_no_slash t hm.2] at e2
      exact h2 (by rw [e1, e2])
    have hd2 : ¬ (c = '.' ∧ t.head? = some '.' ∧ atElementEnd t.tail = true) := by
      intro ⟨e1, e2, e3⟩
      cases t with
      | nil => simp at e2
      | cons d u =>
        simp only [List.head?_cons, Option.some.injEq] at e2
        simp only [List.tail_cons] at e3
        have hu : '/' ∉ u := fun hx => hm.2 (List.mem_cons_of_mem _ hx)
        rw [atElementEnd_of_no_slash u hu] at e3
        exact h3 (by rw [e1, e2, e3])
    have hcopy := copyElement_of_no_slash (c :: t) ['/'] h1
    have hreal : realElement true ['/'] (c :: t) = ((c :: t).reverse ++ ['/'], []) := by
      simp only [realElement, hcopy]
      simp [hcopy]
    simp only [Clean, if_true, List.length_cons]
    rw [cleanLoop_real true _ 1 ['/'] c t hc hd1 hd2, hreal, cleanLoop_nil]
    simp

theorem cleanPath_single (s : List Char) (h0 : s ≠ []) (h1 : '/' ∉ s) (h2 : s ≠ ['.'])
    (h3 : s ≠ ['.', '.']) : cleanPath ⟨'/' :: s⟩ = ⟨'/' :: s⟩ := by
  have hlast : ('/' :: s).getLast? ≠ some '/' := by
    cases s with
    | nil => exact absurd rfl h0
    | cons c t =>
      rw [List.getLast?_cons_cons]
      intro e
      exact h1 (List.mem_of_getLast?_eq_some e)
  have hne : ¬ ((⟨'/' :: s⟩ : String) = "") := by
    intro e
    have := congrArg String.data e
    simp at this
  simp only [cleanPath, hne, if_false, List.head?_cons, ne_eq, not_true_eq_false,
    Clean_single s h0 h1 h2 h3, hlast, false_and]

/-! ## Lemmas: the escaped path and the routing table of `main` -/

theorem unescape_EscapedPath (r : Request) :
    unescape r.EscapedPath.data = some (bytesOf r.Path.data) := by
  unfold Request.EscapedPath
  split
  · rename_i h
    exact h.2.2
  · split
    · rename_i h
      rw [h]
      decide
    · exact unescape_escape _

theorem slash_health_bytes : bytesOf "/health".data = 47 :: healthSegment := by decide

theorem path_of_match (r : Request) (hm : pathSegments r.EscapedPath.data = [healthSegment])
    (hh : r.EscapedPath.data.head? = some '/') : r.Path = "/health" := by
  obtain ⟨c, t, hE, _, hu⟩ := pathSegments_health _ hm
  have hc : c = '/' := by
    rw [hE] at hh
    simpa using hh
  have h1 := unescape_EscapedPath r
  rw [hE, hc, unescape_cons_plain '/' (by decide), hu] at h1
  simp only [Option.map_some', Option.some.injEq] at h1
  have h2 : bytesOf r.Path.data = bytesOf "/health".data := by
    rw [← h1, slash_health_bytes]
    rfl
  have h3 := bytesOf_ascii_inj "/health".data (by decide) r.Path.data h2
  exact String.ext h3

theorem match_of_path (r : Request) (hp : r.Path = "/health") (hs : r.fromServer) :
    pathSegments r.EscapedPath.data = [healthSegment] ∧
      cleanPath r.EscapedPath = r.EscapedPath := by
  have h1 := unescape_EscapedPath r
  rw [hp, slash_health_bytes] at h1
  cases hE : r.EscapedPath with
  | mk d =>
    rw [hE] at h1
    simp only at h1
    have hd : ∃ t, d = '/' :: t := by
      rcases hs with h | h | h
      · exfalso
        rw [hE] at h
        have hd0 : d = [] := by simpa using congrArg String.data h
        rw [hd0] at h1
        revert h1
        decide
      · exfalso
        rw [hE] at h
        have hd0 : d = ['*'] := by simpa using congrArg String.data h
        rw [hd0] at h1
        revert h1
        decide
      · rw [hE] at h
        cases d with
        | nil => simp at h
        | cons c t =>
          simp only [List.head?_cons, Option.some.injEq] at h
          exact ⟨t, by rw [h]⟩
    obtain ⟨t, ht⟩ := hd
    rw [ht, unescape_cons_plain '/' (by decide)] at h1
    cases hu : unescape t with
    | none => simp [hu] at h1
    | some b =>
      rw [hu] at h1
      simp only [Option.map_some', Option.some.injEq] at h1
      have hb : b = healthSegment := by
        have h2 : utf8Bytes '/' = [47] := by decide
        rw [h2] at h1
        simpa using h1
      rw [hb] at hu
      have hslash : '/' ∉ t := by
        intro hm
        have := unescape_slash_mem t _ hu hm
        revert this
        decide
      have h0 : t ≠ [] := by
        intro e
        rw [e] at hu
        revert hu
        decide
      have hdot : t ≠ ['.'] := by
        intro e
        rw [e] at hu
        revert hu
        decide
      have hdots : t ≠ ['.', '.'] := by
        intro e
        rw [e] at hu
        revert hu
        decide
      rw [ht]
      exact ⟨pathSegments_of_health t hslash hu, cleanPath_single t h0 hslash hdot hdots⟩

theorem no_match_of_path (r : Request) (hp : r.Path ≠ "/health") (hs : r.fromServer) :
    pathSegments r.EscapedPath.data ≠ [healthSegment] := by
  intro hm
  rcases hs with h | h | h
  · rw [h] at hm
    revert hm
    decide
  · rw [h] at hm
    revert hm
    decide
  · exact hp (path_of_match r hm h)

theorem mainMux_matchHost (host : List Char) (segs : List (List Nat)) :
    mainMux.matchHost host segs =
      if host = [] ∧ segs = [healthSegment]
      then some { h := healthHandler, pattern := "/health" } else none := by
  have h1 : ({ h := healthHandler, pattern := "/health" } : muxEntry).host = [] := by decide
  have h2 : ({ h := healthHandler, pattern := "/health" } : muxEntry).subtree = false := by
    decide
  have h3 : ({ h := healthHandler, pattern := "/health" } : muxEntry).segments =
      [healthSegment] := by decide
  simp only [ServeMux.matchHost, mainMux_eq, List.find?, muxEntry.matches, h1, h2, h3]
  by_cases ha : host = [] ∧ segs = [healthSegment]
  · obtain ⟨ha1, ha2⟩ := ha
    simp [ha1, ha2]
  · rw [if_neg ha]
    by_cases hb : host = []
    · have hc : ¬ ([healthSegment] = segs) := fun e => ha ⟨hb, e.symm⟩
      simp [hb, hc]
    · have hc : ¬ ([] = host) := fun e => hb e.symm
      simp [hc]

theorem mainMux_treeMatch (host path : String) :
    mainMux.treeMatch host path =
      if pathSegments path.data = [healthSegment]
      then some { h := healthHandler, pattern := "/health" } else none := by
  simp only [ServeMux.treeMatch, mainMux_matchHost]
  by_cases hh : host = ""
  · simp [hh]
  · have hd : ¬ host.data = [] := by
      intro e
      apply hh
      exact String.ext e
    simp [hh, hd]

theorem pathSegments_append_slash (p : String) :
    pathSegments (p ++ "/").data ≠ [healthSegment] := by
  intro hm
  obtain ⟨c, t, hE, hs, hu⟩ := pathSegments_health _ hm
  have hd : (p ++ "/").data = p.data ++ ['/'] := by simp [String.data_append]
  rw [hd] at hE
  cases hp : p.data with
  | nil =>
    rw [hp] at hE
    simp only [List.nil_append, List.cons.injEq] at hE
    rw [← hE.2] at hu
    revert hu
    decide
  | cons a u =>
    rw [hp] at hE
    simp only [List.cons_append, List.cons.injEq] at hE
    apply hs
    rw [← hE.2]
    simp

theorem mainMux_matchOrRedirect (host path : String) (u : Option Request) :
    mainMux.matchOrRedirect host path u = (mainMux.treeMatch host path, none) := by
  cases u with
  | none => rfl
  | some r =>
    have h0 : mainMux.treeMatch host (path ++ "/") = none := by
      rw [mainMux_treeMatch, if_neg (pathSegments_append_slash path)]
    simp only [ServeMux.matchOrRedirect, h0, exactMatch]
    simp

/-- The handler the routing table of `main` selects, by cases. -/
theorem mainMux_findHandler (lib : Codec) (r : Request) :
    mainMux.findHandler lib r =
      if r.Method = "CONNECT" then
        if pathSegments r.EscapedPath.data = [healthSegment]
        then (healthHandler, "/health") else (NotFound, "")
      else if cleanPath r.EscapedPath ≠ r.EscapedPath then
        (Redirect lib (lib.URLString (cleanPath r.EscapedPath) r.RawQuery)
            StatusTemporaryRedirect,
          if pathSegments (cleanPath r.EscapedPath).data = [healthSegment]
          then "/health" else "")
      else if pathSegments r.EscapedPath.data = [healthSegment]
      then (healthHandler, "/health") else (NotFound, "") := by
  simp only [ServeMux.findHandler, mainMux_matchOrRedirect, mainMux_treeMatch]
  by_cases hc : r.Method = "CONNECT"
  · simp only [hc, if_true]
    by_cases hm : pathSegments r.EscapedPath.data = [healthSegment]
    · simp only [hm, if_true]
    · simp only [hm, if_false]
  · simp only [hc, if_false]
    by_cases hp : cleanPath r.EscapedPath = r.EscapedPath
    · simp only [hp, ne_eq, not_true_eq_false, if_false]
      by_cases hm : pathSegments r.EscapedPath.data = [healthSegment]
      · simp only [hm, if_true]
      · simp only [hm, if_false]
    · simp only [hp, ne_eq, not_false_eq_true, if_true]
      by_cases hm : pathSegments (cleanPath r.EscapedPath).data = [healthSegment]
      · simp only [hm, if_true]
      · simp only [hm, if_false]

/-! ## Lemmas: handlers on the server's writer -/

theorem size_append_newline (s : String) : (s ++ "\n").utf8ByteSize ≠ 0 := by
  cases s with
  | mk d =>
    have h : ((⟨d⟩ : String) ++ "\n") = ⟨d ++ ['\n']⟩ := rfl
    rw [h, String.utf8ByteSize_mk]
    intro e
    rw [String.utf8Len_eq_zero] at e
    simp at e

theorem Sprintln_size (s : String) : (Sprintln [s]).utf8ByteSize ≠ 0 :=
  size_append_newline s

theorem writeHeader_fresh (m : String) (H : Header) (code : Nat)
    (hc : ¬ (100 ≤ code ∧ code ≤ 199 ∧ code ≠ 101))
    (hH : Header.get H "Content-Length" = "") :
    response.WriteHeader ⟨m, false, 0, H, none, 0, ""⟩ code =
      ⟨m, true, code, H, none, 0, ""⟩ := by
  simp only [response.WriteHeader, hc, hH, if_false, Bool.false_eq_true, ne_eq,
    not_true_eq_false]

theorem write_open (m : String) (H : Header) (code : Nat) (buf : String)
    (hb : bodyAllowedForStatus code = true) (hsz : buf.utf8ByteSize ≠ 0) :
    (response.Write ⟨m, true, code, H, none, 0, ""⟩ buf).1 =
      ⟨m, true, code, H, none, buf.utf8ByteSize, if m = "HEAD" then "" else buf⟩ := by
  have hw : response.WriteHeader ⟨m, true, code, H, none, 0, ""⟩ StatusOK =
      ⟨m, true, code, H, none, 0, ""⟩ := by
    simp only [response.WriteHeader, if_true]
  have he : ("" : String) ++ buf = buf := by
    cases buf
    rfl
  simp only [response.Write, hw, hsz, hb, if_false, Bool.not_true, Bool.false_eq_true,
    Nat.zero_add, he]
  by_cases hm : m = "HEAD"
  · simp only [hm, if_true]
  · simp only [hm, if_false]

theorem health_on_server (r : Request) :
    (healthHandler response serverWriter (newResponse r) r).1.finishRequest.status = 200 ∧
      (healthHandler response serverWriter (newResponse r) r).1.finishRequest.sent =
        if r.Method = "HEAD" then "" else healthBody := by
  rw [healthHandler_eq]
  have h : (serverWriter.Write (serverWriter.WriteHeader (newResponse r) StatusOK)
      healthBody).1 =
      ⟨r.Method, true, 200, [], none, healthBody.utf8ByteSize,
        if r.Method = "HEAD" then "" else healthBody⟩ := by
    show (response.Write (response.WriteHeader ⟨r.Method, false, 0, [], none, 0, ""⟩ 200)
      healthBody).1 = _
    rw [writeHeader_fresh r.Method [] 200 (by decide) (by decide),
      write_open r.Method [] 200 healthBody (by decide) (by decide)]
  rw [h]
  exact ⟨rfl, rfl⟩

theorem notFound_on_server (r : Request) :
    (NotFound response serverWriter (newResponse r) r).1.finishRequest.status = 404 ∧
      (NotFound response serverWriter (newResponse r) r).1.finishRequest.sent ≠ healthBody := by
  have h : (NotFound response serverWriter (newResponse r) r).1 =
      ⟨r.Method, true, 404,
        Header.Set (Header.Set (Header.Del [] "Content-Length") "Content-Type"
          "text/plain; charset=utf-8") "X-Content-Type-Options" "nosniff",
        none, (Sprintln ["404 page not found"]).utf8ByteSize,
        if r.Method = "HEAD" then "" else Sprintln ["404 page not found"]⟩ := by
    show (response.Write (response.WriteHeader ⟨r.Method, false, 0,
      Header.Set (Header.Set (Header.Del [] "Content-Length") "Content-Type"
        "text/plain; charset=utf-8") "X-Content-Type-Options" "nosniff",
      none, 0, ""⟩ 404) (Sprintln ["404 page not found"])).1 = _
    rw [writeHeader_fresh r.Method _ 404 (by decide) (by decide),
      write_open r.Method _ 404 _ (by decide) (by decide)]
  rw [h]
  refine ⟨rfl, ?_⟩
  show (if r.Method = "HEAD" then "" else Sprintln ["404 page not found"]) ≠ healthBody
  by_cases hm : r.Method = "HEAD"
  · simp only [hm, if_true]
    decide
  · simp only [hm, if_false]
    decide

theorem redirect_body_ne (s : String) :
    Sprintln ["<a href=\"" ++ s ++ "\">" ++ StatusText StatusTemporaryRedirect ++ "</a>.\n"] ≠
      healthBody := by
  intro h
  have h1 := congrArg (fun t : String => t.data.head?) h
  simp [Sprintln, joinSpace, String.data_append, healthBody] at h1

theorem redirect_on_server (lib : Codec) (url : String) (r : Request) :
    (Redirect lib url StatusTemporaryRedirect response serverWriter
        (newResponse r) r).1.finishRequest.status = 307 ∧
      (Redirect lib url StatusTemporaryRedirect response serverWriter
        (newResponse r) r).1.finishRequest.sent ≠ healthBody := by
  have hloc : ∀ v : String, Header.get (Header.Set [] "Location" v) "Content-Length" = "" := by
    intro v
    simp [Header.get, Header.lookup, Header.Set]
  have hct : ∀ v : String,
      Header.get (Header.Set (Header.Set [] "Location" v) "Content-Type"
        "text/html; charset=utf-8") "Content-Length" = "" := by
    intro v
    simp [Header.get, Header.lookup, Header.Set]
  have hlk : Header.lookup (serverWriter.Header (newResponse r)) "Content-Type" = none := rfl
  have hH : serverWriter.Header (newResponse r) = [] := rfl
  by_cases hg : r.Method = "GET"
  · have hg1 : (r.Method = "GET") ↔ True := iff_true_intro hg
    have hne : ¬ r.Method = "HEAD" := by
      rw [hg]
      decide
    have h : (Redirect lib url StatusTemporaryRedirect response serverWriter
        (newResponse r) r).1 =
        (response.Write (response.WriteHeader ⟨r.Method, false, 0,
          Header.Set (Header.Set [] "Location" (lib.hexEscapeNonASCII (lib.resolve r url)))
            "Content-Type" "text/html; charset=utf-8", none, 0, ""⟩ 307)
          (Sprintln ["<a href=\"" ++ lib.htmlEscape (lib.resolve r url) ++ "\">" ++
            StatusText StatusTemporaryRedirect ++ "</a>.\n"])).1 := by
      simp only [Redirect, hlk, hH, Option.isSome_none, Bool.not_false, true_and, hg1, true_or,
        if_true, Fprintln]
      rfl
    rw [h, writeHeader_fresh r.Method _ 307 (by decide) (hct _),
      write_open r.Method _ 307 _ (by decide) (Sprintln_size _)]
    refine ⟨rfl, ?_⟩
    show (if r.Method = "HEAD" then "" else _) ≠ healthBody
    rw [if_neg hne]
    exact redirect_body_ne _
  · have hg1 : (r.Method = "GET") ↔ False := iff_false_intro hg
    by_cases hh : r.Method = "HEAD"
    · have hh1 : (r.Method = "HEAD") ↔ True := iff_true_intro hh
      have h : (Redirect lib url StatusTemporaryRedirect response serverWriter
          (newResponse r) r).1 =
          response.WriteHeader ⟨r.Method, false, 0,
            Header.Set (Header.Set [] "Location" (lib.hexEscapeNonASCII (lib.resolve r url)))
              "Content-Type" "text/html; charset=utf-8", none, 0, ""⟩ 307 := by
        simp only [Redirect, hlk, hH, Option.isSome_none, Bool.not_false, true_and, hg1, hh1,
          or_true, and_false, if_true, if_false]
        rfl
      rw [h, writeHeader_fresh r.Method _ 307 (by decide) (hct _)]
      refine ⟨rfl, ?_⟩
      show ("" : String) ≠ healthBody
      decide
    · have hh1 : (r.Method = "HEAD") ↔ False := iff_false_intro hh
      have h : (Redirect lib url StatusTemporaryRedirect response serverWriter
          (newResponse r) r).1 =
          response.WriteHeader ⟨r.Method, false, 0,
            Header.Set [] "Location" (lib.hexEscapeNonASCII (lib.resolve r url)),
            none, 0, ""⟩ 307 := by
        simp only [Redirect, hlk, hH, Option.isSome_none, Bool.not_false, true_and, hg1, hh1,
          or_false, and_false, if_false]
        rfl
      rw [h, writeHeader_fresh r.Method _ 307 (by decide) (hloc _)]
      refine ⟨rfl, ?_⟩
      show ("" : String) ≠ healthBody
      decide

theorem serve_options_asterisk (lib : Codec) (r : Request) (h1 : r.RequestURI = "*")
    (h2 : r.Method = "OPTIONS") : (serve lib r).status = 200 ∧ (serve lib r).sent = "" := by
  simp only [serve, serverHandler, h1, h2, and_self, if_true, globalOptionsHandler]
  exact ⟨rfl, rfl⟩

theorem serve_asterisk (lib : Codec) (r : Request) (h1 : r.RequestURI = "*")
    (h2 : r.Method ≠ "OPTIONS") : (serve lib r).status = 400 ∧ (serve lib r).sent = "" := by
  simp only [serve, serverHandler, h1, h2, and_false, if_false, ServeMux.ServeHTTP, if_true]
  by_cases hp : r.ProtoAtLeast 1 1 = true
  · simp only [hp, if_true]
    exact ⟨rfl, rfl⟩
  · simp only [hp, if_false]
    exact ⟨rfl, rfl⟩

theorem serve_routed (lib : Codec) (r : Request) (h1 : r.RequestURI ≠ "*") :
    serve lib r =
      ((mainMux.findHandler lib r).1 response serverWriter (newResponse r) r).1.finishRequest := by
  simp only [serve, serverHandler, h1, false_and, if_false, ServeMux.ServeHTTP]

/-! ## The health handler -/

/-- C1: for every request and every response writer on which nothing has been
written yet, `healthHandler` leaves status code 200 and a body that is exactly
the 45-byte literal (it starts with the opening brace and ends with the
closing brace, no newline); formatting the literal with `fmt.Fprintf` leaves
it unchanged. -/
theorem healthHandler_status_and_body (r : Request) (w : Response)
    (hw : w.wroteHeader = false) (hb : w.Body = "") :
    (healthHandler Response recorder w r).1.Code = 200 ∧
      (healthHandler Response recorder w r).1.Body =
        "\x7b\"status\":\"healthy\",\"service\":\"muchtodo-api\"\x7d" ∧
      (healthHandler Response recorder w r).1.Body.utf8ByteSize = 45 ∧
      Sprintf healthBody = healthBody := by
  have hB : (healthHandler Response recorder w r).1.Body = healthBody := by
    rw [healthHandler_recorder]
    simp only [hb]
    cases hd : healthBody with
    | mk d => rfl
  refine ⟨?_, hB, ?_, Sprintf_healthBody⟩
  · rw [healthHandler_recorder]
    simp [hw]
  · rw [hB]
    decide

/-- C1, at a `DELETE` request with a body and headers, on a fresh writer. -/
theorem healthHandler_status_and_body_witness :
    (healthHandler Response recorder NewRecorder
        { request "DELETE" "/anything" with
          Header := [("Accept", ["text/html"])], Body := "payload" }).1.Code = 200 ∧
      (healthHandler Response recorder NewRecorder
        { request "DELETE" "/anything" with
          Header := [("Accept", ["text/html"])], Body := "payload" }).1.Body =
        "\x7b\"status\":\"healthy\",\"service\":\"muchtodo-api\"\x7d" ∧
      (healthHandler Response recorder NewRecorder
        { request "DELETE" "/anything" with
          Header := [("Accept", ["text/html"])], Body := "payload" }).1.Body.utf8ByteSize = 45 ∧
      Sprintf healthBody = healthBody :=
  healthHandler_status_and_body _ NewRecorder rfl rfl

/-- C4: the health response is stable across repeated calls: among the
responses to any sequence of requests, each handled with a fresh writer, any
two have the same body and the same status code. -/
theorem healthHandler_stable (rs : List Request) (i j : Nat) (a b : Response)
    (hi : (serveEach rs)[i]? = some a) (hj : (serveEach rs)[j]? = some b) :
    a.Body = b.Body ∧ a.Code = b.Code := by
  have key : ∀ (k : Nat) (c : Response), (serveEach rs)[k]? = some c →
      c = { wroteHeader := true, Code := 200, HeaderMap := [], Body := "" ++ healthBody } := by
    intro k c hk
    simp only [serveEach, List.getElem?_map, Option.map_eq_some'] at hk
    obtain ⟨q, _, hq⟩ := hk
    rw [← hq, healthHandler_recorder]
    rfl
  rw [key i a hi, key j b hj]
  exact ⟨rfl, rfl⟩

/-- C4, at the first and third of three requests with different methods,
paths and bodies. -/
theorem healthHandler_stable_witness :
    (healthHandler Response recorder NewRecorder (request "GET" "/health")).1.Body =
        (healthHandler Response recorder NewRecorder
          { request "POST" "/other" with Body := "x" }).1.Body ∧
      (healthHandler Response recorder NewRecorder (request "GET" "/health")).1.Code =
        (healthHandler Response recorder NewRecorder
          { request "POST" "/other" with Body := "x" }).1.Code :=
  healthHandler_stable
    [request "GET" "/health", request "HEAD" "/health",
      { request "POST" "/other" with Body := "x" }] 0 2 _ _ rfl rfl

/-- C7: the body written by `healthHandler` is a well-formed JSON document: it
parses as one object with exactly the two members `status` and `service`, in
this order, both strings, with the values `healthy` and `muchtodo-api`. -/
theorem healthHandler_body_json (r : Request) :
    JSON.parse (healthHandler Response recorder NewRecorder r).1.Body =
        some (.object [("status", .string "healthy"), ("service", .string "muchtodo-api")]) ∧
      JSON.stringMembers (healthHandler Response recorder NewRecorder r).1.Body =
        some [("status", "healthy"), ("service", "muchtodo-api")] := by
  have hB : (healthHandler Response recorder NewRecorder r).1.Body = healthBody := by
    rw [healthHandler_recorder]
    rfl
  rw [hB]
  exact ⟨by rfl, by decide⟩

/-- C8: the only effects of `healthHandler` are on the response.  Against any
writer it makes exactly two calls, `WriteHeader(200)` and then one `Write` of
the body, and returns the request as it was, whatever the request is; on the
recording writer, from any state, the body is appended and the header map is
unchanged, so no `Content-Type` is set. -/
theorem healthHandler_frame (r : Request) :
    (∀ (σ : Type) (W : ResponseWriter σ) (w : σ),
        healthHandler σ W w r = ((W.Write (W.WriteHeader w 200) healthBody).1, r)) ∧
      (∀ calls : List Call,
        (healthHandler (List Call) callLog calls r).1 =
          calls ++ [.writeHeader 200, .write healthBody]) ∧
      (∀ w : Response,
        (healthHandler Response recorder w r).1.HeaderMap = w.HeaderMap ∧
          (healthHandler Response recorder w r).1.Body = w.Body ++ healthBody ∧
          Header.lookup (healthHandler Response recorder w r).1.HeaderMap "Content-Type" =
            Header.lookup w.HeaderMap "Content-Type") := by
  refine ⟨fun σ W w => healthHandler_eq σ W w r, ?_, ?_⟩
  · intro calls
    rw [healthHandler_eq]
    simp [callLog, StatusOK]
  · intro w
    rw [healthHandler_recorder]
    exact ⟨rfl, rfl, rfl⟩

/-! ## Writers whose methods may panic -/

/-- On a writer whose methods always return, the handler with panics made
explicit returns what `healthHandler` returns. -/
theorem healthHandler_ofTotal (σ : Type) (W : ResponseWriter σ) (w : σ) (r : Request) :
    WithPanics.healthHandler σ (WithPanics.ofTotal W) w r = .ok (healthHandler σ W w r) := by
  rfl

/-- C10 as stated fails: against a writer whose `Write` panics, `healthHandler`
does not terminate normally; the panic of `Write` ends the handler, which has
no `recover`. -/
theorem healthHandler_panics_counterexample :
    WithPanics.healthHandler Nat WithPanics.panicking 0 (request "GET" "/health") =
      .error "write on a closed writer" := by
  rfl

/-- C10, amended: for every request and every writer on which the two calls
the handler makes return (`WriteHeader(200)`, then `Write` of the body),
`healthHandler` terminates normally, in the state `Write` left, with the
request untouched, whatever byte count and error `Write` returned: the error
is not propagated.  Only these two calls are assumed to return. -/
theorem healthHandler_returns (σ : Type) (W : WithPanics.ResponseWriter σ) (w w1 w2 : σ)
    (n : Nat) (err : Option String) (r : Request)
    (hWH : W.WriteHeader w 200 = .ok w1)
    (hW : W.Write w1 "\x7b\"status\":\"healthy\",\"service\":\"muchtodo-api\"\x7d" =
      .ok (w2, n, err)) :
    WithPanics.healthHandler σ W w r = .ok (w2, r) := by
  have hW1 : W.Write w1 healthBody = .ok (w2, n, err) := hW
  have hWH1 : W.WriteHeader w StatusOK = .ok w1 := hWH
  simp only [WithPanics.healthHandler, WithPanics.Fprintf, Sprintf_healthBody, hWH1, hW1]

/-- C10 amended, at a writer whose `Write` returns an error, and at the
recording writer that panics on an invalid status code. -/
theorem healthHandler_returns_witness :
    (WithPanics.brokenPipe.WriteHeader 0 200 = .ok 0 ∧
      WithPanics.brokenPipe.Write 0 "\x7b\"status\":\"healthy\",\"service\":\"muchtodo-api\"\x7d" =
        .ok (1, 0, some "write: broken pipe") ∧
      WithPanics.healthHandler Nat WithPanics.brokenPipe 0 (request "POST" "/health") =
        .ok (1, request "POST" "/health")) ∧
    (WithPanics.recorder.WriteHeader NewRecorder 0 = .error "invalid WriteHeader code 0" ∧
      WithPanics.healthHandler Response WithPanics.recorder NewRecorder (request "GET" "/x") =
        .ok ({ wroteHeader := true, Code := 200, HeaderMap := [],
               Body := "\x7b\"status\":\"healthy\",\"service\":\"muchtodo-api\"\x7d" },
             request "GET" "/x")) :=
  ⟨⟨rfl, rfl,
      healthHandler_returns Nat WithPanics.brokenPipe 0 0 1 0 (some "write: broken pipe")
        (request "POST" "/health") rfl rfl⟩,
    ⟨rfl,
      healthHandler_returns Response WithPanics.recorder NewRecorder
        { wroteHeader := true, Code := 200, HeaderMap := [], Body := "" }
        { wroteHeader := true, Code := 200, HeaderMap := [],
          Body := "\x7b\"status\":\"healthy\",\"service\":\"muchtodo-api\"\x7d" }
        45 none (request "GET" "/x") rfl rfl⟩⟩

/-! ## Routing: the reply of the server -/

/-- With the whole target an asterisk, the escaped path is the asterisk. -/
theorem EscapedPath_asterisk (r : Request) (hp : r.Path = "*") (hs : r.fromServer) :
    r.EscapedPath = "*" := by
  have h1 := unescape_EscapedPath r
  rw [hp] at h1
  rcases hs with h | h | h
  · exfalso
    rw [h] at h1
    revert h1
    decide
  · exact h
  · exfalso
    cases hE : r.EscapedPath with
    | mk d =>
      rw [hE] at h h1
      cases d with
      | nil => simp at h
      | cons c t =>
        simp only [List.head?_cons, Option.some.injEq] at h
        rw [h, unescape_cons_plain '/' (by decide)] at h1
        cases hu : unescape t with
        | none => simp [hu] at h1
        | some b =>
          rw [hu] at h1
          simp only [Option.map_some', Option.some.injEq] at h1
          have h2 : utf8Bytes '/' = [47] := by decide
          have h3 : bytesOf "*".data = [42] := by decide
          rw [h2, h3] at h1
          simp at h1

/-- The asterisk is not a canonical path. -/
theorem cleanPath_asterisk : cleanPath "*" ≠ "*" := by decide

/-- C2 as stated fails for `HEAD`: the request `HEAD /health` is answered with
status 200 and no body bytes, not with the health payload, so the method does
change the outcome (`GET /health` is answered with the payload). -/
theorem head_reply_counterexample :
    (request "HEAD" "/health").Path = "/health" ∧
      (serve plainCodec (request "HEAD" "/health")).status = 200 ∧
      (serve plainCodec (request "HEAD" "/health")).sent = "" ∧
      (serve plainCodec (request "HEAD" "/health")).sent ≠
        "\x7b\"status\":\"healthy\",\"service\":\"muchtodo-api\"\x7d" ∧
      (serve plainCodec (request "GET" "/health")).sent =
        "\x7b\"status\":\"healthy\",\"service\":\"muchtodo-api\"\x7d" := by
  decide

/-- C2, amended: with the routing table of `main`, a request whose path is
exactly `/health`, as the server delivers it, is dispatched to `healthHandler`
and answered with status 200, whatever its method; the body of the reply is
the health payload for every method except `HEAD`, whose reply has no body
bytes. -/
theorem health_reply (lib : Codec) (r : Request) (h : r.Path = "/health")
    (hs : r.fromServer) :
    mainMux.findHandler lib r = (healthHandler, "/health") ∧
      (serve lib r).status = 200 ∧
      (serve lib r).sent =
        if r.Method = "HEAD" then ""
        else "\x7b\"status\":\"healthy\",\"service\":\"muchtodo-api\"\x7d" := by
  obtain ⟨hm, hc⟩ := match_of_path r h hs
  have hf : mainMux.findHandler lib r = (healthHandler, "/health") := by
    rw [mainMux_findHandler]
    simp only [hm, hc, ne_eq, not_true_eq_false, if_true, if_false, ite_self]
  have hu : r.RequestURI ≠ "*" := by
    intro e
    rw [RequestURI_star, h] at e
    exact absurd e.1 (by decide)
  refine ⟨hf, ?_⟩
  rw [serve_routed lib r hu, hf]
  exact health_on_server r

/-- C2 amended, at `POST /health`, at `HEAD /health`, and at `PUT` with the
path sent percent-encoded. -/
theorem health_reply_witness :
    ((request "POST" "/health").Path = "/health" ∧ (request "POST" "/health").fromServer ∧
      (serve plainCodec (request "POST" "/health")).status = 200 ∧
      (serve plainCodec (request "POST" "/health")).sent =
        "\x7b\"status\":\"healthy\",\"service\":\"muchtodo-api\"\x7d") ∧
    ((serve plainCodec (request "HEAD" "/health")).status = 200 ∧
      (serve plainCodec (request "HEAD" "/health")).sent = "") ∧
    ((serve plainCodec { request "PUT" "/health" with RawPath := "/%68ealth" }).status = 200 ∧
      (serve plainCodec { request "PUT" "/health" with RawPath := "/%68ealth" }).sent =
        "\x7b\"status\":\"healthy\",\"service\":\"muchtodo-api\"\x7d") :=
  ⟨⟨rfl, by decide,
      (health_reply plainCodec (request "POST" "/health") rfl (by decide)).2⟩,
    (health_reply plainCodec (request "HEAD" "/health") rfl (by decide)).2,
    (health_reply plainCodec { request "PUT" "/health" with RawPath := "/%68ealth" } rfl
      (by decide)).2⟩

/-- C3 as stated fails: `GET //health` and `GET /./health` are requests for
paths other than `/health` that are not answered with status 404; the mux
answers them with the redirect status 307. -/
theorem not_found_counterexample :
    ((request "GET" "//health").Path ≠ "/health" ∧
      (serve plainCodec (request "GET" "//health")).status = 307 ∧
      (serve plainCodec (request "GET" "//health")).status ≠ 404) ∧
    ((request "GET" "/./health").Path ≠ "/health" ∧
      (serve plainCodec (request "GET" "/./health")).status = 307 ∧
      (serve plainCodec (request "GET" "/./health")).status ≠ 404) := by
  decide

/-- C3, amended: with the routing table of `main`, a request whose path is
other than `/health`, as the server delivers it, is never answered with the
health payload.  It is answered with status 404 when its escaped path is
already in the canonical form the mux compares with (`cleanPath` leaves it
unchanged).  When its escaped path is not in canonical form, its method is
not `CONNECT` and its target is not the asterisk, it is answered with status
307 instead. -/
theorem other_paths (lib : Codec) (r : Request) (h : r.Path ≠ "/health")
    (hs : r.fromServer) :
    (serve lib r).sent ≠ "\x7b\"status\":\"healthy\",\"service\":\"muchtodo-api\"\x7d" ∧
      (cleanPath r.EscapedPath = r.EscapedPath → (serve lib r).status = 404) ∧
      (cleanPath r.EscapedPath ≠ r.EscapedPath → r.Method ≠ "CONNECT" → r.Path ≠ "*" →
        (serve lib r).status = 307) := by
  have hnm := no_match_of_path r h hs
  by_cases hu : r.RequestURI = "*"
  · have hp : r.Path = "*" := ((RequestURI_star r).mp hu).1
    have hE := EscapedPath_asterisk r hp hs
    refine ⟨?_, ?_, ?_⟩
    · by_cases ho : r.Method = "OPTIONS"
      · rw [(serve_options_asterisk lib r hu ho).2]
        decide
      · rw [(serve_asterisk lib r hu ho).2]
        decide
    · intro hc
      rw [hE] at hc
      exact absurd hc cleanPath_asterisk
    · intro _ _ hne
      exact absurd hp hne
  · rw [serve_routed lib r hu, mainMux_findHandler]
    by_cases hm : r.Method = "CONNECT"
    · rw [if_pos hm, if_neg hnm]
      refine ⟨(notFound_on_server r).2, fun _ => (notFound_on_server r).1, ?_⟩
      intro _ hne
      exact absurd hm hne
    · rw [if_neg hm]
      by_cases hc : cleanPath r.EscapedPath = r.EscapedPath
      · rw [if_neg (not_not.mpr hc), if_neg hnm]
        refine ⟨(notFound_on_server r).2, fun _ => (notFound_on_server r).1, ?_⟩
        intro hne
        exact absurd hc hne
      · rw [if_pos hc]
        refine ⟨(redirect_on_server lib _ r).2, ?_, fun _ _ _ => (redirect_on_server lib _ r).1⟩
        intro he
        exact absurd he hc

/-- C3 amended, at the canonical paths `/`, `/nonexistent`, `/health/`,
`/health/x` and `/healthz`, which get 404, and at `//health` and `/./health`,
which get 307; none is answered with the payload.  The path `/a/../health`
gets 307 when sent as it is and 404 when its slashes are sent
percent-encoded, since the escaped path is then canonical. -/
theorem other_paths_witness :
    ((request "GET" "/nonexistent").Path ≠ "/health" ∧
      (request "GET" "/nonexistent").fromServer ∧
      (serve plainCodec (request "GET" "/nonexistent")).sent ≠
        "\x7b\"status\":\"healthy\",\"service\":\"muchtodo-api\"\x7d" ∧
      (serve plainCodec (request "GET" "/nonexistent")).status = 404) ∧
    (serve plainCodec (request "GET" "/")).status = 404 ∧
    (serve plainCodec (request "POST" "/health/")).status = 404 ∧
    (serve plainCodec (request "GET" "/health/x")).status = 404 ∧
    (serve plainCodec (request "DELETE" "/healthz")).status = 404 ∧
    ((request "GET" "//health").fromServer ∧
      (serve plainCodec (request "GET" "//health")).sent ≠
        "\x7b\"status\":\"healthy\",\"service\":\"muchtodo-api\"\x7d" ∧
      (serve plainCodec (request "GET" "//health")).status = 307) ∧
    (serve plainCodec (request "POST" "/./health")).status = 307 ∧
    (serve plainCodec (request "GET" "/a/../health")).status = 307 ∧
    (serve plainCodec
      { request "GET" "/a/../health" with RawPath := "/a%2F..%2Fhealth" }).status = 404 :=
  ⟨⟨by decide, by decide,
      (other_paths plainCodec (request "GET" "/nonexistent") (by decide) (by decide)).1,
      (other_paths plainCodec (request "GET" "/nonexistent") (by decide) (by decide)).2.1
        (by decide)⟩,
    (other_paths plainCodec (request "GET" "/") (by decide) (by decide)).2.1 (by decide),
    (other_paths plainCodec (request "POST" "/health/") (by decide) (by decide)).2.1 (by decide),
    (other_paths plainCodec (request "GET" "/health/x") (by decide) (by decide)).2.1 (by decide),
    (other_paths plainCodec (request "DELETE" "/healthz") (by decide) (by decide)).2.1
      (by decide),
    ⟨by decide,
      (other_paths plainCodec (request "GET" "//health") (by decide) (by decide)).1,
      (other_paths plainCodec (request "GET" "//health") (by decide) (by decide)).2.2
        (by decide) (by decide) (by decide)⟩,
    (other_paths plainCodec (request "POST" "/./health") (by decide) (by decide)).2.2
      (by decide) (by decide) (by decide),
    (other_paths plainCodec (request "GET" "/a/../health") (by decide) (by decide)).2.2
      (by decide) (by decide) (by decide),
    (other_paths plainCodec { request "GET" "/a/../health" with RawPath := "/a%2F..%2Fhealth" }
      (by decide) (by decide)).2.1 (by decide)⟩

/-! ## The process -/

theorem run_eq (env : Env) :
    run env =
      match env.ListenAndServe ":8080" with
      | .serves =>
        .stop .serving
          { DefaultServeMux := mainMux
            trace := [.handleFunc "/health", .stdout "Server starting on :8080\n",
              .listenAndServe ":8080" true] }
      | .returns err =>
        .stop (.exit 1)
          { DefaultServeMux := mainMux
            trace := [.handleFunc "/health", .stdout "Server starting on :8080\n",
              .listenAndServe ":8080" true, .stderr (logLine env (Sprint err))] } := by
  cases h : env.ListenAndServe ":8080" <;>
    simp [run, main, bind, Proc.bind, HandleFunc, Println, emit, ListenAndServe, Fatal,
      World.start, ServeMux.Handle, ServeMux.get, h, mainMux_eq, Sprintln, joinSpace]

/-- C5: `main` never returns normally and never ends by itself with exit code
0; whenever the listen-and-serve step returns an error, `main` logs that error
on standard error as its last action and exits with code 1, after a single
listen call, on `:8080`. -/
theorem main_fatal (env : Env) :
    (run env).returned = false ∧ (run env).exitCode ≠ some 0 ∧
      ∀ err, env.ListenAndServe ":8080" = .returns err →
        (run env).exitCode = some 1 ∧
          stderrOf (run env).world.trace = [logLine env (Sprint err)] ∧
          (run env).world.trace.getLast? = some (.stderr (logLine env (Sprint err))) ∧
          listensOf (run env).world.trace = [(":8080", true)] := by
  rw [run_eq]
  cases h : env.ListenAndServe ":8080" with
  | serves => exact ⟨rfl, by simp [Step.exitCode], fun err he => by cases he⟩
  | returns e =>
    refine ⟨rfl, by simp [Step.exitCode], fun err he => ?_⟩
    cases he
    exact ⟨rfl, rfl, rfl, rfl⟩

/-- C5, in an environment where port 8080 is already taken. -/
theorem main_fatal_witness :
    (run portTaken).exitCode = some 1 ∧
      stderrOf (run portTaken).world.trace =
        ["2024/01/01 00:00:00 listen tcp :8080: bind: address already in use\n"] ∧
      (run portTaken).world.trace.getLast? =
        some (.stderr "2024/01/01 00:00:00 listen tcp :8080: bind: address already in use\n") ∧
      listensOf (run portTaken).world.trace = [(":8080", true)] :=
  (main_fatal portTaken).2.2 (some "listen tcp :8080: bind: address already in use") rfl

/-- C6: in every environment and with every argument list, `main` registers
exactly one route, the pattern `/health` bound to `healthHandler`, and makes
one listen call, on the address `:8080` with a nil handler, which selects the
default mux. -/
theorem main_route_and_address (env : Env) :
    (run env).world.DefaultServeMux.m = [{ h := healthHandler, pattern := "/health" }] ∧
      (run env).world.DefaultServeMux.es = [] ∧
      (run env).world.DefaultServeMux.hosts = false ∧
      patternsOf (run env).world.trace = ["/health"] ∧
      listensOf (run env).world.trace = [(":8080", true)] := by
  rw [run_eq]
  cases env.ListenAndServe ":8080" <;> exact ⟨rfl, rfl, rfl, rfl, rfl⟩

/-- C9: in every run, `main` writes `Server starting on :8080` and a newline
to standard output exactly once, after registering the `/health` route and
before the listen call, also when the listen call then fails. -/
theorem startup_message (env : Env) :
    (run env).world.trace.take 3 =
        [.handleFunc "/health", .stdout "Server starting on :8080\n",
          .listenAndServe ":8080" true] ∧
      stdoutOf (run env).world.trace = ["Server starting on :8080\n"] := by
  rw [run_eq]
  cases env.ListenAndServe ":8080" <;> exact ⟨rfl, rfl⟩

end MuchTodo
